import Mathlib

/-!
Verification of the context-assembly and plan-extraction pipeline of the
generate-pr-with-llm repository.  JavaScript strings are embedded as `List Char`
(`Str`); the pure string algorithms of `src/markdown.ts`, `src/text.ts`,
`src/spawn.ts`, `src/issue.ts`, `src/plan.ts` and `src/test.ts` are translated
into executable Lean definitions, and external effects (the `gh` CLI, process
spawning, LLM calls) are abstracted as oracle parameters, mirroring the external
collaborators of the design.
-/

namespace GenPR

/-- JavaScript strings, embedded as lists of characters. -/
abbrev Str := List Char

/-- Build a `Str` from a Lean string literal (convenience for concrete inputs). -/
def str (s : String) : Str := s.data

/-- Whitespace characters recognised by JavaScript's `String.prototype.trim`
and by the regex class `\s` (ASCII subset plus NBSP; the exotic Unicode
space characters never appear in the inputs considered here). -/
def isJsSpace (c : Char) : Bool :=
  c = ' ' || c = '\t' || c = '\n' || c = '\r' || c = '\x0b' || c = '\x0c' || c = ' '

/-- `String.prototype.trim`: strip leading and trailing whitespace. -/
def jsTrim (l : Str) : Str :=
  ((l.dropWhile (isJsSpace ·)).reverse.dropWhile (isJsSpace ·)).reverse

/-- `String.prototype.indexOf`: index of the first occurrence of `pat`,
`none` standing for JavaScript's `-1`. -/
def firstIdx (pat : Str) : Str → Option Nat
  | [] => if pat.isPrefixOf ([] : Str) then some 0 else none
  | c :: xs =>
    if pat.isPrefixOf (c :: xs) then some 0
    else (firstIdx pat (xs : Str)).map (· + 1)

/-- `String.prototype.slice(start, stop)` for non-negative bounds. -/
def jsSlice (l : Str) (start stop : Nat) : Str := (l.take stop).drop start

/-- Length of the run of `c` at the head of the list. -/
def leadRun (c : Char) : Str → Nat
  | [] => 0
  | x :: xs => if x = c then leadRun c xs + 1 else 0

/-- Length of the longest run of the character `c` in the list. -/
def maxRun (c : Char) : Str → Nat
  | [] => 0
  | x :: xs => max (leadRun c (x :: xs)) (maxRun c xs)

/-! ## `src/markdown.ts` -/

/-- `findDistinctFence` (src/markdown.ts).  `content.match(/c{3,}/g)` returns
exactly the maximal runs of `c` of length at least 3, so the maximum match
length is `maxRun c content` when that is at least 3, and the match is `null`
(encoded by `maxLength = 0`) otherwise. -/
def findDistinctFence (content : Str) (fenceChar : Char) : Str :=
  let maxLength := if 3 ≤ maxRun fenceChar content then maxRun fenceChar content else 0
  let fenceLength := max 3 (maxLength + 1)
  List.replicate fenceLength fenceChar

/-- JavaScript's `-1`-sentinel result of `indexOf`, as an integer. -/
def idxInt (pat : Str) (l : Str) : Int :=
  match firstIdx pat l with
  | none => -1
  | some i => (i : Int)

/-- The `indices.every((index, i) => i === 0 || index > indices[i - 1])`
check of `extractHeaderContents`: adjacent entries strictly increase. -/
def strictIncr : List Int → Bool
  | [] => true
  | [_] => true
  | a :: b :: rest => decide (a < b) && strictIncr (b :: rest)

/-- `slice` with integer bounds as used by `extractHeaderContents`; in the
success path both bounds are non-negative, where `Int.toNat` is exact. -/
def jsSliceI (l : Str) (start stop : Int) : Str := jsSlice l start.toNat stop.toNat

/-- The `headers.map((header, i) => ...)` body of `extractHeaderContents`:
the section of each header runs from just after the header's line to the
next header's match (or the end of the text), and is trimmed. -/
def sectionsOf (m : Str) : List (Str × Int) → List Str
  | [] => []
  | (h, i) :: rest =>
    let start : Int := i + 1 + (h.length : Int)
    let stop : Int :=
      match rest with
      | [] => (m.length : Int)
      | (_, j) :: _ => j + 1
    jsTrim (jsSliceI m start stop) :: sectionsOf m rest

/-- `extractHeaderContents` (src/markdown.ts): prepend a newline, locate each
header's first occurrence as `"\n" + header`, fail if any is missing or the
indices are not strictly increasing, else return the trimmed sections. -/
def extractHeaderContents (text : Str) (headers : List Str) : Option (List Str) :=
  let modifiedResponse : Str := '\n' :: text
  let indices : List Int := headers.map (fun header => idxInt ('\n' :: header) modifiedResponse)
  if indices.any (fun i => i = -1) || !strictIncr indices then none
  else some (sectionsOf modifiedResponse (headers.zip indices))

/-! ## Longest-run lemmas and fence safety (claim C2) -/

theorem leadRun_replicate_append (c : Char) (n : Nat) (t : Str) :
    n ≤ leadRun c (List.replicate n c ++ t) := by
  induction n with
  | zero => exact Nat.zero_le _
  | succ k ih =>
    have hstep : leadRun c (List.replicate (k + 1) c ++ t)
        = leadRun c (List.replicate k c ++ t) + 1 := by
      simp [List.replicate_succ, leadRun]
    omega

theorem leadRun_le_maxRun (c : Char) (l : Str) : leadRun c l ≤ maxRun c l := by
  cases l with
  | nil => exact Nat.le_refl _
  | cons x xs => exact le_max_left _ _

theorem maxRun_append_left (c : Char) (s t : Str) : maxRun c t ≤ maxRun c (s ++ t) := by
  induction s with
  | nil => simp
  | cons a s ih =>
    calc maxRun c t ≤ maxRun c (s ++ t) := ih
      _ ≤ maxRun c (a :: (s ++ t)) := le_max_right _ _

theorem le_maxRun_of_infix {c : Char} {n : Nat} {l : Str}
    (h : List.replicate n c <:+: l) : n ≤ maxRun c l := by
  obtain ⟨s, t, rfl⟩ := h
  calc n ≤ leadRun c (List.replicate n c ++ t) := leadRun_replicate_append c n t
    _ ≤ maxRun c (List.replicate n c ++ t) := leadRun_le_maxRun _ _
    _ ≤ maxRun c (s ++ (List.replicate n c ++ t)) := maxRun_append_left _ _ _
    _ = maxRun c (s ++ List.replicate n c ++ t) := by rw [List.append_assoc]

theorem replicate_leadRun_isPre (c : Char) (l : Str) :
    List.replicate (leadRun c l) c <+: l := by
  induction l with
  | nil => simp [leadRun]
  | cons x xs ih =>
    by_cases hx : x = c
    · subst hx
      simpa [leadRun, List.replicate_succ] using ih
    · simp [leadRun, hx]

theorem replicate_maxRun_infix (c : Char) (l : Str) :
    List.replicate (maxRun c l) c <:+: l := by
  induction l with
  | nil => simp [maxRun]
  | cons x xs ih =>
    simp only [maxRun]
    rcases max_cases (leadRun c (x :: xs)) (maxRun c xs) with ⟨heq, _⟩ | ⟨heq, _⟩ <;> rw [heq]
    · exact (replicate_leadRun_isPre c (x :: xs)).isInfix
    · exact ih.trans (List.suffix_cons x xs).isInfix

/-- C2: `findDistinctFence` returns a run of the fence character of length
`max(3, L + 1)`, where `L` is the longest run of at least 3 of that character
(0 if none); `maxRun` is characterised as the longest run present; and the
returned fence never occurs as a substring of the content. -/
theorem c2_findDistinctFence_safe (content : Str) (c : Char) :
    (∀ n, List.replicate n c <:+: content → n ≤ maxRun c content) ∧
    List.replicate (maxRun c content) c <:+: content ∧
    findDistinctFence content c =
      List.replicate
        (max 3 ((if 3 ≤ maxRun c content then maxRun c content else 0) + 1)) c ∧
    ¬ findDistinctFence content c <:+: content := by
  refine ⟨fun n h => le_maxRun_of_infix h, replicate_maxRun_infix c content, rfl, ?_⟩
  intro hinf
  have hfence : findDistinctFence content c =
      List.replicate
        (max 3 ((if 3 ≤ maxRun c content then maxRun c content else 0) + 1)) c := rfl
  rw [hfence] at hinf
  have hle := le_maxRun_of_infix hinf
  by_cases h3 : 3 ≤ maxRun c content
  · rw [if_pos h3] at hle
    omega
  · rw [if_neg h3] at hle
    omega

/-- Witness for C2 at a concrete content containing a backtick run. -/
theorem c2_findDistinctFence_safe_witness :
    ¬ findDistinctFence (str "abc```def") '`' <:+: str "abc```def" :=
  (c2_findDistinctFence_safe (str "abc```def") '`').2.2.2

/-! ## `firstIdx` characterization -/

theorem firstIdx_eq_some {pat : Str} {k : Nat} {l : Str}
    (hocc : pat <+: l.drop k) (hmin : ∀ j < k, ¬ pat <+: l.drop j) :
    firstIdx pat l = some k := by
  induction k generalizing l with
  | zero =>
    have hp : pat.isPrefixOf l = true :=
      List.isPrefixOf_iff_prefix.mpr (by simpa using hocc)
    cases l with
    | nil => simp [firstIdx, hp]
    | cons c xs => simp [firstIdx, hp]
  | succ k ih =>
    have h0 : ¬ pat <+: l := by simpa using hmin 0 (Nat.succ_pos k)
    cases l with
    | nil => exact absurd (by simpa using hocc) h0
    | cons c xs =>
      have hpf : ¬ pat.isPrefixOf (c :: xs) = true :=
        fun h => h0 (List.isPrefixOf_iff_prefix.mp h)
      have hrec : firstIdx pat xs = some k := by
        apply ih
        · simpa [List.drop_succ_cons] using hocc
        · intro j hj
          simpa [List.drop_succ_cons] using hmin (j + 1) (Nat.succ_lt_succ hj)
      simp [firstIdx, hpf, hrec]

/-- If the text is `P ++ "\n" ++ B ++ rest`, then `"\n" ++ B` first occurs at
index `P.length`, provided `B` has no newline (so no occurrence straddles the
boundary) and `"\n" ++ B` is not contained in `P ++ "\n"`. -/
theorem firstIdx_block (B P rest : Str) (hB : '\n' ∉ B)
    (hocc : ¬ ('\n' :: B) <:+: (P ++ ['\n'])) :
    firstIdx ('\n' :: B) (P ++ '\n' :: (B ++ rest)) = some P.length := by
  apply firstIdx_eq_some
  · rw [List.drop_left]
    exact (List.cons_prefix_cons).mpr ⟨rfl, List.prefix_append B rest⟩
  · intro j hj hpre
    have hjle : j ≤ P.length := le_of_lt hj
    rw [List.drop_append_of_le_length hjle] at hpre
    have hQlen : (P.drop j).length = P.length - j := List.length_drop j P
    have hQpos : 0 < (P.drop j).length := by omega
    by_cases hlen : B.length + 1 ≤ (P.drop j).length + 1
    · -- the supposed occurrence fits inside `P ++ "\n"`
      have heq : ('\n' :: B : Str) = (P.drop j ++ '\n' :: (B ++ rest)).take ('\n' :: B).length :=
        List.prefix_iff_eq_take.mp hpre
      have hassoc : P.drop j ++ '\n' :: (B ++ rest) = (P.drop j ++ ['\n']) ++ (B ++ rest) := by
        simp
      have htk : (P.drop j ++ '\n' :: (B ++ rest)).take ('\n' :: B).length
          = (P.drop j ++ ['\n']).take ('\n' :: B).length := by
        rw [hassoc]
        exact List.take_append_of_le_length (by simp; omega)
      have hpre2 : ('\n' :: B : Str) <+: P.drop j ++ ['\n'] := by
        rw [heq, htk]
        exact List.take_prefix _ _
      have hsuf : (P.drop j ++ ['\n'] : Str) <:+ P ++ ['\n'] := by
        obtain ⟨s, hs⟩ := List.drop_suffix j P
        exact ⟨s, by rw [← List.append_assoc, hs]⟩
      exact hocc (hpre2.isInfix.trans hsuf.isInfix)
    · -- the supposed occurrence straddles the `"\n"` boundary, so `B` has a newline
      have heq : ('\n' :: B : Str) = (P.drop j ++ '\n' :: (B ++ rest)).take ('\n' :: B).length :=
        List.prefix_iff_eq_take.mp hpre
      have hd : ('\n' :: B : Str).length
          = (P.drop j).length + (('\n' :: B).length - (P.drop j).length) := by
        simp only [List.length_cons]
        omega
      rw [hd, List.take_append] at heq
      have hd2 : ('\n' :: B : Str).length - (P.drop j).length
          = (('\n' :: B : Str).length - (P.drop j).length - 1) + 1 := by
        simp only [List.length_cons]
        omega
      rw [hd2, List.take_succ_cons] at heq
      obtain ⟨q0, Q, hQ⟩ := List.exists_cons_of_ne_nil (List.ne_nil_of_length_pos hQpos)
      rw [hQ, List.cons_append, List.cons.injEq] at heq
      exact hB (heq.2 ▸ List.mem_append_right Q (List.mem_cons_self '\n' _))

/-! ## Trimming lemmas -/

theorem jsTrim_cons_of_space {c : Char} (h : isJsSpace c = true) (l : Str) :
    jsTrim (c :: l) = jsTrim l := by
  simp [jsTrim, List.dropWhile_cons, h]

theorem jsTrim_append_of_space {c : Char} (h : isJsSpace c = true) (l : Str) :
    jsTrim (l ++ [c]) = jsTrim l := by
  unfold jsTrim
  rw [List.dropWhile_append]
  by_cases he : (l.dropWhile (isJsSpace ·)).isEmpty
  · have hl : l.dropWhile (isJsSpace ·) = [] := List.isEmpty_iff.mp he
    simp [he, hl, List.dropWhile_cons, h]
  · rw [if_neg he, List.reverse_append]
    simp [List.dropWhile_cons, h]

theorem isJsSpace_newline : isJsSpace '\n' = true := rfl

/-! ## `extractHeaderContents` on three in-order headers -/

theorem extractHeaderContents_three (text A B C : Str) (a b c : Nat)
    (hA : firstIdx ('\n' :: A) ('\n' :: text) = some a)
    (hB : firstIdx ('\n' :: B) ('\n' :: text) = some b)
    (hC : firstIdx ('\n' :: C) ('\n' :: text) = some c)
    (hab : a < b) (hbc : b < c) :
    extractHeaderContents text [A, B, C] = some
      [jsTrim (jsSlice ('\n' :: text) (a + 1 + A.length) (b + 1)),
       jsTrim (jsSlice ('\n' :: text) (b + 1 + B.length) (c + 1)),
       jsTrim (jsSlice ('\n' :: text) (c + 1 + C.length) ('\n' :: text).length)] := by
  have ta : ((a : Int) + 1 + (A.length : Int)).toNat = a + 1 + A.length := by omega
  have tb : ((b : Int) + 1 + (B.length : Int)).toNat = b + 1 + B.length := by omega
  have tc : ((c : Int) + 1 + (C.length : Int)).toNat = c + 1 + C.length := by omega
  have sb : ((b : Int) + 1).toNat = b + 1 := by omega
  have sc : ((c : Int) + 1).toNat = c + 1 := by omega
  have sm : ((('\n' :: text : Str).length : Int)).toNat = ('\n' :: text : Str).length := by omega
  have hanyA : ¬ ((a : Int) = -1) := by omega
  have hanyB : ¬ ((b : Int) = -1) := by omega
  have hanyC : ¬ ((c : Int) = -1) := by omega
  have habI : (a : Int) < (b : Int) := by exact_mod_cast hab
  have hbcI : (b : Int) < (c : Int) := by exact_mod_cast hbc
  simp only [extractHeaderContents, idxInt, hA, hB, hC, List.map_cons, List.map_nil,
    List.any_cons, List.any_nil, strictIncr, List.zip_cons_cons, List.zip_nil_right,
    List.zipWith_cons_cons, List.zipWith_nil_right, List.zipWith_nil_left,
    sectionsOf, jsSliceI, decide_eq_true_eq, Bool.or_false, Bool.and_true]
  rw [if_neg]
  · simp only [ta, tb, tc, sb, sc, sm]
  · simp [hanyA, hanyB, hanyC, habI, hbcI]

/-- C4: round-trip extraction.  For header labels `A`, `B`, `C` (no embedded
newline, `A` nonempty) and contents `c1`, `c2`, `c3` disjoint from the headers
(the header lines `"\nB"`, `"\nC"` do not occur in the earlier text),
extracting `[A, B, C]` from `"\nA\n" ++ c1 ++ "\nB\n" ++ c2 ++ "\nC\n" ++ c3`
yields exactly `[trim c1, trim c2, trim c3]`. -/
theorem c4_extractHeaderContents_roundTrip (A B C c1 c2 c3 : Str)
    (hA0 : A ≠ []) (hAn : '\n' ∉ A) (hBn : '\n' ∉ B) (hCn : '\n' ∉ C)
    (hBocc : ¬ ('\n' :: B) <:+: ('\n' :: '\n' :: (A ++ '\n' :: c1 ++ ['\n'])))
    (hCocc : ¬ ('\n' :: C) <:+:
      ('\n' :: '\n' :: (A ++ '\n' :: c1 ++ '\n' :: B ++ '\n' :: c2 ++ ['\n']))) :
    extractHeaderContents
        ('\n' :: A ++ '\n' :: c1 ++ '\n' :: B ++ '\n' :: c2 ++ '\n' :: C ++ '\n' :: c3)
        [A, B, C]
      = some [jsTrim c1, jsTrim c2, jsTrim c3] := by
  set text : Str :=
    '\n' :: A ++ '\n' :: c1 ++ '\n' :: B ++ '\n' :: c2 ++ '\n' :: C ++ '\n' :: c3 with htext
  set m : Str := '\n' :: text with hmdef
  have hAocc : ¬ ('\n' :: A) <:+: ((['\n'] : Str) ++ ['\n']) := by
    intro h
    obtain ⟨x, t, rfl⟩ := List.exists_cons_of_ne_nil hA0
    have hl := h.length_le
    simp only [List.length_cons, List.length_append, List.length_nil] at hl
    have ht : t = [] := List.eq_nil_of_length_eq_zero (by omega)
    subst ht
    have heq := h.eq_of_length (by simp)
    simp only [List.cons_append, List.nil_append, List.cons.injEq] at heq
    exact hAn (by simp [heq.2.1])
  have hIdxA : firstIdx ('\n' :: A) m = some 1 := by
    have hm1 : m = (['\n'] : Str) ++ '\n' ::
        (A ++ ('\n' :: c1 ++ '\n' :: B ++ '\n' :: c2 ++ '\n' :: C ++ '\n' :: c3)) := by
      simp [hmdef, htext]
    rw [hm1]
    exact firstIdx_block A ['\n'] _ hAn hAocc
  have hIdxB : firstIdx ('\n' :: B) m = some (A.length + c1.length + 3) := by
    have hm2 : m = ('\n' :: '\n' :: (A ++ '\n' :: c1)) ++ '\n' ::
        (B ++ ('\n' :: c2 ++ '\n' :: C ++ '\n' :: c3)) := by
      simp [hmdef, htext]
    have hlen : ('\n' :: '\n' :: (A ++ '\n' :: c1) : Str).length
        = A.length + c1.length + 3 := by
      simp only [List.length_cons, List.length_append]
      omega
    have hocc2 : ¬ ('\n' :: B) <:+: (('\n' :: '\n' :: (A ++ '\n' :: c1)) ++ ['\n']) := by
      intro h
      apply hBocc
      have : ('\n' :: '\n' :: (A ++ '\n' :: c1)) ++ ['\n']
          = ('\n' :: '\n' :: (A ++ '\n' :: c1 ++ ['\n'])) := by simp
      rwa [this] at h
    rw [hm2, firstIdx_block B _ _ hBn hocc2, hlen]
  have hIdxC : firstIdx ('\n' :: C) m
      = some (A.length + c1.length + B.length + c2.length + 5) := by
    have hm3 : m = ('\n' :: '\n' :: (A ++ '\n' :: c1 ++ '\n' :: B ++ '\n' :: c2)) ++ '\n' ::
        (C ++ '\n' :: c3) := by
      simp [hmdef, htext]
    have hlen : ('\n' :: '\n' :: (A ++ '\n' :: c1 ++ '\n' :: B ++ '\n' :: c2) : Str).length
        = A.length + c1.length + B.length + c2.length + 5 := by
      simp only [List.length_cons, List.length_append]
      omega
    have hocc3 : ¬ ('\n' :: C) <:+:
        (('\n' :: '\n' :: (A ++ '\n' :: c1 ++ '\n' :: B ++ '\n' :: c2)) ++ ['\n']) := by
      intro h
      apply hCocc
      have : ('\n' :: '\n' :: (A ++ '\n' :: c1 ++ '\n' :: B ++ '\n' :: c2)) ++ ['\n']
          = ('\n' :: '\n' :: (A ++ '\n' :: c1 ++ '\n' :: B ++ '\n' :: c2 ++ ['\n'])) := by
        simp
      rwa [this] at h
    rw [hm3, firstIdx_block C _ _ hCn hocc3, hlen]
  have hmain := extractHeaderContents_three text A B C 1
    (A.length + c1.length + 3) (A.length + c1.length + B.length + c2.length + 5)
    hIdxA hIdxB hIdxC (by omega) (by omega)
  rw [hmain]
  have hs1 : jsSlice m (1 + 1 + A.length) (A.length + c1.length + 3 + 1)
      = '\n' :: (c1 ++ ['\n']) := by
    have htk : m.take (A.length + c1.length + 3 + 1)
        = ('\n' :: '\n' :: (A ++ '\n' :: c1)) ++ ['\n'] := by
      have hm2 : m = (('\n' :: '\n' :: (A ++ '\n' :: c1)) ++ ['\n']) ++
          (B ++ ('\n' :: c2 ++ '\n' :: C ++ '\n' :: c3)) := by
        simp [hmdef, htext]
      rw [hm2]
      apply List.take_left'
      simp only [List.length_append, List.length_cons, List.length_nil]
      omega
    have hdr : ((('\n' :: '\n' :: (A ++ '\n' :: c1)) ++ ['\n'] : Str)).drop (1 + 1 + A.length)
        = '\n' :: (c1 ++ ['\n']) := by
      have hre : (('\n' :: '\n' :: (A ++ '\n' :: c1)) ++ ['\n'] : Str)
          = ('\n' :: '\n' :: A) ++ ('\n' :: (c1 ++ ['\n'])) := by simp
      rw [hre]
      apply List.drop_left'
      simp only [List.length_cons]
      omega
    rw [jsSlice, htk, hdr]
  have hs2 : jsSlice m (A.length + c1.length + 3 + 1 + B.length)
      (A.length + c1.length + B.length + c2.length + 5 + 1) = '\n' :: (c2 ++ ['\n']) := by
    have htk : m.take (A.length + c1.length + B.length + c2.length + 5 + 1)
        = ('\n' :: '\n' :: (A ++ '\n' :: c1 ++ '\n' :: B ++ '\n' :: c2)) ++ ['\n'] := by
      have hm3 : m = (('\n' :: '\n' :: (A ++ '\n' :: c1 ++ '\n' :: B ++ '\n' :: c2)) ++ ['\n'])
          ++ (C ++ '\n' :: c3) := by
        simp [hmdef, htext]
      rw [hm3]
      apply List.take_left'
      simp only [List.length_append, List.length_cons, List.length_nil]
      omega
    have hdr : ((('\n' :: '\n' :: (A ++ '\n' :: c1 ++ '\n' :: B ++ '\n' :: c2)) ++ ['\n'] : Str)).drop
        (A.length + c1.length + 3 + 1 + B.length) = '\n' :: (c2 ++ ['\n']) := by
      have hre : (('\n' :: '\n' :: (A ++ '\n' :: c1 ++ '\n' :: B ++ '\n' :: c2)) ++ ['\n'] : Str)
          = ('\n' :: '\n' :: (A ++ '\n' :: c1 ++ '\n' :: B)) ++ ('\n' :: (c2 ++ ['\n'])) := by
        simp
      rw [hre]
      apply List.drop_left'
      simp only [List.length_cons, List.length_append]
      omega
    rw [jsSlice, htk, hdr]
  have hs3 : jsSlice m (A.length + c1.length + B.length + c2.length + 5 + 1 + C.length)
      m.length = '\n' :: c3 := by
    have htk : m.take m.length = m := List.take_length m
    have hdr : m.drop (A.length + c1.length + B.length + c2.length + 5 + 1 + C.length)
        = '\n' :: c3 := by
      have hm4 : m = (('\n' :: '\n' :: (A ++ '\n' :: c1 ++ '\n' :: B ++ '\n' :: c2)) ++
          '\n' :: C) ++ ('\n' :: c3) := by
        simp [hmdef, htext]
      rw [hm4]
      apply List.drop_left'
      simp only [List.length_append, List.length_cons]
      omega
    rw [jsSlice, htk, hdr]
  rw [hs1, hs2, hs3]
  rw [jsTrim_cons_of_space isJsSpace_newline, jsTrim_append_of_space isJsSpace_newline,
    jsTrim_cons_of_space isJsSpace_newline, jsTrim_append_of_space isJsSpace_newline,
    jsTrim_cons_of_space isJsSpace_newline]

/-- Witness for C4 at concrete headers and contents. -/
theorem c4_extractHeaderContents_roundTrip_witness :
    extractHeaderContents
        ('\n' :: str "# A" ++ '\n' :: str " aa " ++ '\n' :: str "# B" ++ '\n' :: str "bb"
          ++ '\n' :: str "# C" ++ '\n' :: str "cc")
        [str "# A", str "# B", str "# C"]
      = some [jsTrim (str " aa "), jsTrim (str "bb"), jsTrim (str "cc")] :=
  c4_extractHeaderContents_roundTrip (str "# A") (str "# B") (str "# C")
    (str " aa ") (str "bb") (str "cc")
    (by decide) (by decide) (by decide) (by decide) (by decide) (by decide)

/-! ## Claim C3: strictness of header extraction -/

theorem idxInt_eq_neg_one_iff (pat l : Str) :
    idxInt pat l = -1 ↔ firstIdx pat l = none := by
  unfold idxInt
  cases h : firstIdx pat l with
  | none => simp
  | some i => simp

theorem strictIncr_map_cast (xs : List Nat) :
    strictIncr (xs.map (fun n => (n : Int))) = true ↔ List.Chain' (· < ·) xs := by
  induction xs with
  | nil => simp [strictIncr]
  | cons a t ih =>
    cases t with
    | nil => simp [strictIncr]
    | cons b u =>
      simp only [List.map_cons, strictIncr, Bool.and_eq_true, decide_eq_true_eq] at ih ⊢
      rw [List.chain'_cons, ← ih]
      constructor
      · rintro ⟨h1, h2⟩
        exact ⟨by exact_mod_cast h1, h2⟩
      · rintro ⟨h1, h2⟩
        exact ⟨by exact_mod_cast h1, h2⟩

theorem map_idxInt_of_all_found {m : Str} {headers : List Str}
    (hall : ∀ h ∈ headers, (firstIdx ('\n' :: h) m).isSome) :
    headers.map (fun h => idxInt ('\n' :: h) m)
      = (headers.filterMap (fun h => firstIdx ('\n' :: h) m)).map (fun n => (n : Int)) := by
  induction headers with
  | nil => simp
  | cons h t ih =>
    obtain ⟨k, hk⟩ := Option.isSome_iff_exists.mp (hall h (List.mem_cons_self h t))
    simp only [List.map_cons, List.filterMap_cons, hk, idxInt]
    exact congrArg _ (ih (fun x hx => hall x (List.mem_cons_of_mem _ hx)))

theorem sectionsOf_length (m : Str) (ps : List (Str × Int)) :
    (sectionsOf m ps).length = ps.length := by
  induction ps with
  | nil => rfl
  | cons p t ih => simp [sectionsOf, ih]

theorem extractHeaderContents_eq_none_iff (text : Str) (headers : List Str) :
    extractHeaderContents text headers = none ↔
      (((headers.map (fun h => idxInt ('\n' :: h) ('\n' :: text))).any (fun i => i = -1)
        || !strictIncr (headers.map (fun h => idxInt ('\n' :: h) ('\n' :: text)))) = true) := by
  simp only [extractHeaderContents]
  split
  · next h => simp [h]
  · next h => simp [h]

/-- C3: `extractHeaderContents` returns `none` exactly when some header has no
newline-preceded occurrence or the first-occurrence indices are not strictly
increasing in header order; otherwise one string per header is returned.  In
particular, headers present in order `B, A, C` give `none`, and in order
`A, B, C` give exactly 3 strings. -/
theorem c3_extractHeaderContents_strict (text : Str) (headers : List Str) :
    (extractHeaderContents text headers = none ↔
      (∃ h ∈ headers, firstIdx ('\n' :: h) ('\n' :: text) = none) ∨
      ¬ List.Chain' (· < ·)
        (headers.filterMap (fun h => firstIdx ('\n' :: h) ('\n' :: text)))) ∧
    (∀ out, extractHeaderContents text headers = some out → out.length = headers.length) ∧
    extractHeaderContents (str "# B\nbbb\n# A\naaa\n# C\nccc")
      [str "# A", str "# B", str "# C"] = none ∧
    (extractHeaderContents (str "# A\naaa\n# B\nbbb\n# C\nccc")
      [str "# A", str "# B", str "# C"]).map List.length = some 3 := by
  refine ⟨?_, ?_, by decide, by decide⟩
  · rw [extractHeaderContents_eq_none_iff]
    by_cases hex : ∃ h ∈ headers, firstIdx ('\n' :: h) ('\n' :: text) = none
    · constructor
      · exact fun _ => Or.inl hex
      · intro _
        obtain ⟨h, hh, hnone⟩ := hex
        have : idxInt ('\n' :: h) ('\n' :: text) = -1 := (idxInt_eq_neg_one_iff _ _).mpr hnone
        rw [Bool.or_eq_true, List.any_eq_true]
        exact Or.inl ⟨_, List.mem_map_of_mem _ hh, by simp [this]⟩
    · push_neg at hex
      have hall : ∀ h ∈ headers, (firstIdx ('\n' :: h) ('\n' :: text)).isSome :=
        fun h hh => Option.ne_none_iff_isSome.mp (hex h hh)
      have hany : (headers.map (fun h => idxInt ('\n' :: h) ('\n' :: text))).any
          (fun i => i = -1) = false := by
        rw [List.any_eq_false]
        intro x hx
        obtain ⟨h, hh, rfl⟩ := List.mem_map.mp hx
        simp only [decide_eq_true_eq]
        intro hbad
        exact hex h hh ((idxInt_eq_neg_one_iff _ _).mp hbad)
      rw [hany, Bool.false_or, map_idxInt_of_all_found hall]
      constructor
      · intro hnot
        refine Or.inr ?_
        rw [← strictIncr_map_cast]
        simpa using hnot
      · rintro (hleft | hright)
        · obtain ⟨h, hh, hn⟩ := hleft
          exact absurd ((Option.ne_none_iff_isSome.mpr (hall h hh)) hn) (fun x => x)
        · rw [← strictIncr_map_cast] at hright
          simpa using hright
  · intro out hout
    rw [extractHeaderContents] at hout
    split at hout
    · exact absurd hout (by simp)
    · have hlen := sectionsOf_length ('\n' :: text)
        (headers.zip (headers.map (fun h => idxInt ('\n' :: h) ('\n' :: text))))
      have : out = sectionsOf ('\n' :: text)
          (headers.zip (headers.map (fun h => idxInt ('\n' :: h) ('\n' :: text)))) := by
        injection hout.symm
      rw [this, hlen, List.length_zip, List.length_map, Nat.min_self]

/-- Witness for C3 applying the theorem at a concrete text and header list. -/
theorem c3_extractHeaderContents_strict_witness :
    ([str "aaa", str "bbb", str "ccc"] : List Str).length
      = ([str "# A", str "# B", str "# C"] : List Str).length :=
  (c3_extractHeaderContents_strict (str "# A\naaa\n# B\nbbb\n# C\nccc")
    [str "# A", str "# B", str "# C"]).2.1 [str "aaa", str "bbb", str "ccc"] (by decide)

/-! ## `src/spawn.ts`: `parseCommandLineArgs` -/

/-- The single-quote character (ASCII 39). -/
def squote : Char := Char.ofNat 39

/-- The character-by-character state machine of `parseCommandLineArgs`:
`current` is the argument being accumulated, `inD`/`inS` the double/single
quote states, `result` the arguments produced so far. -/
def parseCommandLineArgsGo : List Char → Str → Bool → Bool → List Str → List Str
  | [], current, _, _, result =>
      if current ≠ [] then result ++ [current] else result
  | ch :: rest, current, inD, inS, result =>
      if ch = '"' && !inS then
        parseCommandLineArgsGo rest current (!inD) inS result
      else if ch = squote && !inD then
        parseCommandLineArgsGo rest current inD (!inS) result
      else if ch = ' ' && !inD && !inS then
        if current ≠ [] then parseCommandLineArgsGo rest [] inD inS (result ++ [current])
        else parseCommandLineArgsGo rest current inD inS result
      else
        parseCommandLineArgsGo rest (current ++ [ch]) inD inS result

/-- `parseCommandLineArgs` (src/spawn.ts): split a command line into
arguments, preserving quoted strings; the empty string yields no arguments. -/
def parseCommandLineArgs (argsString : Str) : List Str :=
  if argsString = [] then []
  else parseCommandLineArgsGo argsString [] false false []

/-! ## `src/test.ts`: the test/fix loop -/

/-- Result of `spawnAsync`: captured output and exit status (`none` models a
`null` status from a signal-terminated process). -/
structure SpawnRes where
  stdout : Str
  stderr : Str
  status : Option Int

/-- `TestResult` (src/test.ts). -/
structure TestResult where
  fixResult : Str
  success : Bool
  error : Option Str
deriving DecidableEq

/-- Ghost instrumentation: the external invocations `testAndFix` performs,
in order (`spawn n` = running the test command on attempt `n`, `fix n` =
delegating to the coding tool after attempt `n` failed). -/
inductive TestEvent where
  | spawn (attempt : Nat)
  | fix (attempt : Nat)
deriving DecidableEq

/-- `${testResult.status}`: JavaScript prints a `null` status as "null". -/
def statusStr : Option Int → Str
  | none => str "null"
  | some k => (toString k).data

/-- The fix prompt built by `testAndFix` on a failed attempt, with stdout and
stderr each wrapped in an independently selected tilde fence. -/
def buildFixPrompt (testCommand : Str) (r : SpawnRes) : Str :=
  let stdoutFence := findDistinctFence r.stdout '~'
  let stderrFence := findDistinctFence r.stderr '~'
  jsTrim (str "\nThe previous changes were applied, but the test command `" ++ testCommand
    ++ str "` failed.\n\nExit code: " ++ statusStr r.status
    ++ str "\n\nStdout:\n" ++ stdoutFence ++ str "\n" ++ r.stdout ++ str "\n" ++ stdoutFence
    ++ str "\n\nStderr:\n" ++ stderrFence ++ str "\n" ++ r.stderr ++ str "\n" ++ stderrFence
    ++ str "\n\nPlease analyze the output and fix the errors.\n")

/-- The `lastError` recorded by `testAndFix` for a failed attempt. -/
def lastErrorOf (r : SpawnRes) : Str :=
  str "Test command failed with exit code " ++ statusStr r.status
    ++ str "\n\nStdout:\n" ++ r.stdout ++ str "\n\nStderr:\n" ++ r.stderr

/-- The `while (attempts < maxAttempts)` loop of `testAndFix`.  `runs n` is
the spawn result of attempt `n` and `fixO n prompt` the transcript returned by
`runToolFix` after attempt `n`; `remaining = maxAttempts - idx` counts the
attempts still allowed and `idx` the attempts already made.  Returns the final
`(fixResult, success, lastError)` state and the event trace. -/
def testAndFixGo (runs : Nat → SpawnRes) (fixO : Nat → Str → Str) (testCommand : Str) :
    Nat → Nat → Str → Str → List TestEvent → (Str × Bool × Str × List TestEvent)
  | 0, _, fixResult, lastError, events => (fixResult, false, lastError, events)
  | rem + 1, idx, fixResult, lastError, events =>
      let attempts := idx + 1
      let r := runs attempts
      let events1 := events ++ [TestEvent.spawn attempts]
      if r.status = some 0 then (fixResult, true, lastError, events1)
      else
        let lastError1 := lastErrorOf r
        if rem = 0 then (fixResult, false, lastError1, events1)
        else
          let prompt := buildFixPrompt testCommand r
          testAndFixGo runs fixO testCommand rem attempts
            (fixResult ++ fixO attempts prompt) lastError1
            (events1 ++ [TestEvent.fix attempts])

/-- `testAndFix` (src/test.ts, lines 120-179): parse the configured test
command; with no program token the function is a successful no-op; otherwise
run the bounded test/fix loop.  The second component is the ghost event
trace. -/
def testAndFix (testCommand : Option Str) (maxTestAttempts : Nat)
    (runs : Nat → SpawnRes) (fixO : Nat → Str → Str) : TestResult × List TestEvent :=
  match parseCommandLineArgs (testCommand.getD []) with
  | [] => ({ fixResult := [], success := true, error := none }, [])
  | _ :: _ =>
    let out := testAndFixGo runs fixO (testCommand.getD []) maxTestAttempts 0 [] [] []
    ({ fixResult := out.1, success := out.2.1,
       error := if out.2.1 then none else some out.2.2.1 }, out.2.2.2)

/-- C8: with `maxAttempts = 3` and a test command that always exits nonzero,
the loop spawns the test exactly 3 times, invokes the coding-tool fix exactly
twice (after attempts 1 and 2, not after attempt 3), and returns failure with
a non-empty error recording the last run's exit code, stdout and stderr. -/
theorem c8_testAndFix_exhaustion (testCommand : Str) (runs : Nat → SpawnRes)
    (fixO : Nat → Str → Str)
    (hcmd : parseCommandLineArgs testCommand ≠ [])
    (hfail : ∀ n, (runs n).status ≠ some 0) :
    (testAndFix (some testCommand) 3 runs fixO).1.success = false ∧
    (testAndFix (some testCommand) 3 runs fixO).1.error = some (lastErrorOf (runs 3)) ∧
    lastErrorOf (runs 3) ≠ [] ∧
    (testAndFix (some testCommand) 3 runs fixO).2 =
      [TestEvent.spawn 1, TestEvent.fix 1, TestEvent.spawn 2, TestEvent.fix 2,
       TestEvent.spawn 3] := by
  have hgo : testAndFixGo runs fixO testCommand 3 0 [] [] [] =
      ((fixO 1 (buildFixPrompt testCommand (runs 1)) ++
        fixO 2 (buildFixPrompt testCommand (runs 2))), false, lastErrorOf (runs 3),
       [TestEvent.spawn 1, TestEvent.fix 1, TestEvent.spawn 2, TestEvent.fix 2,
        TestEvent.spawn 3]) := by
    simp [testAndFixGo, hfail 1, hfail 2, hfail 3]
  have hle : lastErrorOf (runs 3) ≠ [] := by
    simp [lastErrorOf, str]
  unfold testAndFix
  cases hp : parseCommandLineArgs ((some testCommand).getD []) with
  | nil => exact absurd (by simpa using hp) hcmd
  | cons a l =>
    simp only [Option.getD_some] at hgo ⊢
    rw [hgo]
    exact ⟨rfl, rfl, hle, rfl⟩

/-- Witness for C8 at a concrete always-failing command. -/
theorem c8_testAndFix_exhaustion_witness :
    (testAndFix (some (str "false")) 3
        (fun _ => ⟨str "out", str "err", some 1⟩) (fun _ _ => str "log")).2 =
      [TestEvent.spawn 1, TestEvent.fix 1, TestEvent.spawn 2, TestEvent.fix 2,
       TestEvent.spawn 3] :=
  (c8_testAndFix_exhaustion (str "false")
    (fun _ => ⟨str "out", str "err", some 1⟩) (fun _ _ => str "log")
    (by decide) (by intro n; simp)).2.2.2

/-- C10 counterexample: the command `" "` (a quoted space) consists only of
spaces and quote characters, yet parses to the program token `" "`, so
`testAndFix` spawns it rather than returning the configured-no-test no-op. -/
theorem c10_quoted_space_counterexample :
    (∀ ch ∈ str "\x22 \x22", ch = '"' ∨ ch = squote ∨ ch = ' ') ∧
    parseCommandLineArgs (str "\x22 \x22") = [str " "] ∧
    (testAndFix (some (str "\x22 \x22")) 1 (fun _ => ⟨[], [], some 0⟩) (fun _ _ => [])).2
      = [TestEvent.spawn 1] := by
  decide

theorem parseGo_all_spaces (cs : List Char) (r : List Str)
    (h : ∀ ch ∈ cs, ch = ' ') :
    parseCommandLineArgsGo cs [] false false r = r := by
  induction cs with
  | nil => rfl
  | cons a t ih =>
    have ha : a = ' ' := h a (List.mem_cons_self a t)
    subst ha
    have hrec := ih (fun ch hch => h ch (List.mem_cons_of_mem _ hch))
    simpa [parseCommandLineArgsGo, squote] using hrec

/-- C10 (amended): `testAndFix` is the successful no-op, with no spawn and no
error field, exactly for test commands that `parseCommandLineArgs` maps to no
program token — the absent command, the empty string, and in particular every
command consisting only of (unquoted) spaces; a quoted space, by contrast,
parses to a token. -/
theorem c10_testAndFix_noop (cmd : Option Str) (maxA : Nat) (runs : Nat → SpawnRes)
    (fixO : Nat → Str → Str) (h : parseCommandLineArgs (cmd.getD []) = []) :
    testAndFix cmd maxA runs fixO = ({ fixResult := [], success := true, error := none }, [])
    ∧ ∀ cmd2 : Str, (∀ ch ∈ cmd2, ch = ' ') → parseCommandLineArgs cmd2 = [] := by
  constructor
  · unfold testAndFix
    rw [h]
  · intro cmd2 hsp
    unfold parseCommandLineArgs
    split
    · rfl
    · exact parseGo_all_spaces cmd2 [] hsp

/-- Witness for the amended C10 at a concrete all-space command. -/
theorem c10_testAndFix_noop_witness :
    testAndFix (some (str "   ")) 5 (fun _ => ⟨[], [], some 1⟩) (fun _ _ => [])
      = ({ fixResult := [], success := true, error := none }, []) :=
  (c10_testAndFix_noop (some (str "   ")) 5 (fun _ => ⟨[], [], some 1⟩) (fun _ _ => [])
    (by decide)).1

/-! ## `trimCodeBlockFences` (src/markdown.ts)

Backtracking matcher for the anchored replacement regex
`/^(\x60{3,}|~{3,})[\s\S]*?\n([\s\S]*?)\n\1\s*$/` applied to the trimmed
content: group 1 is tried greedily (longest leading fence run first), the two
lazy groups shortest-first, and the close must be the same fence followed only
by whitespace up to the end. -/

/-- Does `tail` start with `"\n" ++ fence` followed by whitespace only
(the `\n\1\s*$` tail of the regex)? -/
def matchClose (fence : Str) : Str → Bool
  | '\n' :: r => fence.isPrefixOf r && (r.drop fence.length).all (isJsSpace ·)
  | _ => false

/-- Lazy search for group 2: the shortest prefix of `tail` whose remainder
matches `\n\1\s*$`; returns the captured group 2. -/
def closeSearch (fence : Str) : Str → Option Str
  | [] => if matchClose fence [] then some [] else none
  | c :: rest =>
    if matchClose fence (c :: rest) then some []
    else (closeSearch fence rest).map (c :: ·)

/-- Lazy search for `[\s\S]*?\n` followed by a successful group-2 search. -/
def openSearch (fence : Str) : Str → Option Str
  | [] => none
  | c :: rest =>
    if c = '\n' then
      match closeSearch fence rest with
      | some b => some b
      | none => openSearch fence rest
    else openSearch fence rest

/-- Greedy choice of the group-1 fence length: `f` down to 3. -/
def tryFenceLens (c : Char) (t : Str) : Nat → Option Str
  | 0 => none
  | f + 1 =>
    if f + 1 < 3 then none
    else
      match openSearch (List.replicate (f + 1) c) (t.drop (f + 1)) with
      | some b => some b
      | none => tryFenceLens c t f

/-- `trimCodeBlockFences` (src/markdown.ts): trim, then strip one outer code
fence (any number ≥ 3 of backticks or tildes) if the whole string is such a
fenced block; otherwise return the trimmed content unchanged. -/
def trimCodeBlockFences (content : Str) : Str :=
  let t := jsTrim content
  match t with
  | [] => []
  | c :: _ =>
    if c = '`' ∨ c = '~' then
      match tryFenceLens c t (leadRun c t) with
      | some b => b
      | none => t
    else t

/-! ## The file-path bullet regex of `planCodeChanges`

Backtracking matcher for `/\B-\s*\x60?([^\x60\n]+)\x60?/g`: `\B` holds before
a `-` exactly when the previous character is a non-word character (or the
string starts), `\s*` is greedy with backtracking, both optional backticks are
greedy, and the capture is one or more characters that are neither backtick
nor newline. -/

/-- JavaScript `\w`. -/
def isWordChar (c : Char) : Bool := c.isAlpha || c.isDigit || c = '_'

/-- Greedy `[^\x60\n]+` candidate. -/
def takeNonTick (l : Str) : Str := l.takeWhile (fun c => !(c = '`' || c = '\n'))

/-- Match `\x60?([^\x60\n]+)\x60?` at the current position; returns the
capture, the last consumed character, and the remaining input. -/
def bulletAfterWs (p : Str) : Option (Str × Char × Str) :=
  match p with
  | '`' :: p1 =>
    if takeNonTick p1 ≠ [] then
      match p1.drop (takeNonTick p1).length with
      | '`' :: rest2 => some (takeNonTick p1, '`', rest2)
      | after => some (takeNonTick p1, (takeNonTick p1).getLastD ' ', after)
    else none
  | _ =>
    if takeNonTick p ≠ [] then
      match p.drop (takeNonTick p).length with
      | '`' :: rest2 => some (takeNonTick p, '`', rest2)
      | after => some (takeNonTick p, (takeNonTick p).getLastD ' ', after)
    else none

/-- Backtrack the greedy `\s*` from `k` consumed whitespace characters down
to none. -/
def bulletTryKs (rest : Str) : Nat → Option (Str × Char × Str)
  | 0 => bulletAfterWs rest
  | k + 1 =>
    match bulletAfterWs (rest.drop (k + 1)) with
    | some r => some r
    | none => bulletTryKs rest k

theorem bulletAfterWs_lt {p : Str} {r : Str × Char × Str}
    (h : bulletAfterWs p = some r) : r.2.2.length < p.length := by
  unfold bulletAfterWs at h
  split at h
  · next p1 =>
    have hlen : (takeNonTick p1).length ≤ p1.length :=
      (List.takeWhile_prefix _).length_le
    have hd : (p1.drop (takeNonTick p1).length).length
        = p1.length - (takeNonTick p1).length := List.length_drop _ _
    split at h
    · next hcap =>
      have hpos : 0 < (takeNonTick p1).length := List.length_pos.mpr hcap
      split at h
      · next rest2 heq =>
        have hlen2 := congrArg List.length heq
        simp only [List.length_cons] at hlen2
        injection h with h1
        subst h1
        dsimp only
        simp only [List.length_cons]
        omega
      · next heq =>
        injection h with h1
        subst h1
        dsimp only
        simp only [List.length_cons]
        omega
    · exact absurd h (by simp)
  · next hne =>
    have hlen : (takeNonTick p).length ≤ p.length :=
      (List.takeWhile_prefix _).length_le
    have hd : (p.drop (takeNonTick p).length).length
        = p.length - (takeNonTick p).length := List.length_drop _ _
    split at h
    · next hcap =>
      have hpos : 0 < (takeNonTick p).length := List.length_pos.mpr hcap
      split at h
      · next rest2 heq =>
        have hlen2 := congrArg List.length heq
        simp only [List.length_cons] at hlen2
        injection h with h1
        subst h1
        dsimp only
        omega
      · next heq =>
        injection h with h1
        subst h1
        dsimp only
        omega
    · exact absurd h (by simp)

theorem bulletTryKs_lt {rest : Str} {k : Nat} {r : Str × Char × Str}
    (h : bulletTryKs rest k = some r) : r.2.2.length < rest.length + 1 := by
  induction k with
  | zero =>
    have := bulletAfterWs_lt h
    omega
  | succ k ih =>
    unfold bulletTryKs at h
    split at h
    · next heq =>
      injection h with h1
      subst h1
      have h1 := bulletAfterWs_lt heq
      have h2 : (rest.drop (k + 1)).length ≤ rest.length := by
        rw [List.length_drop]
        omega
      omega
    · exact ih h

/-- `matchAll` scan for the bullet regex: captures in order, resuming after
each match and tracking word-character status for `\B`.  The fuel argument
only makes the recursion structural (each step consumes at least one input
character and one unit of fuel, so by `bulletTryKs_lt` fuel `l.length + 1`
never runs out). -/
def bulletScanF : Nat → Bool → Str → List Str
  | 0, _, _ => []
  | _ + 1, _, [] => []
  | fuel + 1, prevW, c :: rest =>
    if c = '-' && !prevW then
      match bulletTryKs rest ((rest.takeWhile (isJsSpace ·)).length) with
      | some r => r.1 :: bulletScanF fuel (isWordChar r.2.1) r.2.2
      | none => bulletScanF fuel false rest
    else bulletScanF fuel (isWordChar c) rest

def bulletScan (prevW : Bool) (l : Str) : List Str :=
  bulletScanF (l.length + 1) prevW l

/-- The file-path list parse of `planCodeChanges`:
`[...filesContent.matchAll(filePathRegex)].map((m) => m[1].trim())`. -/
def parseFilePaths (filesContent : Str) : List Str :=
  (bulletScan false filesContent).map jsTrim

/-- The fuel of `bulletScanF` is irrelevant above the input length, so
`bulletScan` is the fixpoint of the scan. -/
theorem bulletScanF_congr : ∀ (f1 f2 : Nat) (w : Bool) (l : Str),
    l.length < f1 → l.length < f2 → bulletScanF f1 w l = bulletScanF f2 w l := by
  intro f1
  induction f1 with
  | zero => intro f2 w l h1 h2; omega
  | succ f ih =>
    intro f2 w l h1 h2
    cases f2 with
    | zero => omega
    | succ g =>
      cases l with
      | nil => rfl
      | cons c rest =>
        simp only [List.length_cons] at h1 h2
        simp only [bulletScanF]
        by_cases hc : (c = '-' && !w) = true
        · rw [if_pos hc, if_pos hc]
          cases hm : bulletTryKs rest ((rest.takeWhile (isJsSpace ·)).length) with
          | none => exact ih g false rest (by omega) (by omega)
          | some r =>
            have hlt := bulletTryKs_lt hm
            exact congrArg _ (ih g (isWordChar r.2.1) r.2.2 (by omega) (by omega))
        · rw [if_neg hc, if_neg hc]
          exact ih g (isWordChar c) rest (by omega) (by omega)

/-! ## `planCodeChanges` (src/plan.ts): response processing

The repomix packaging, file reads and LLM calls are external collaborators;
the LLM responses are therefore parameters, and these definitions are the
response-processing logic of `planCodeChanges` for each mode. -/

def HEADING_OF_FILE_PATHS_TO_BE_MODIFIED : Str := str "# File Paths to be Modified"
def HEADING_OF_FILE_PATHS_TO_BE_REFERRED : Str := str "# File Paths to be Referred"
def HEADING_OF_PLAN : Str := str "# Implementation Plans"
def HEADING_OF_COMMIT_MESSAGE : Str := str "# Commit Message"

/-- `ResolutionPlan` (src/plan.ts). -/
structure ResolutionPlan where
  plan : Option Str
  commitMessage : Option Str
  filePaths : List Str
deriving DecidableEq

/-- Single-stage `planCodeChanges` (src/plan.ts lines 141-172), as a function
of the LLM response: extract `[Commit Message, Plan, File Paths to be
Modified]` (in that header order) from the fence-trimmed response; on failure
return an empty plan, else parse the bullet list of file paths. -/
def planSingleStage (filesResponse : Str) : ResolutionPlan :=
  match extractHeaderContents (trimCodeBlockFences filesResponse)
      [HEADING_OF_COMMIT_MESSAGE, HEADING_OF_PLAN, HEADING_OF_FILE_PATHS_TO_BE_MODIFIED] with
  | none => { plan := none, commitMessage := none, filePaths := [] }
  | some extracted =>
    { plan := extracted.get? 1,
      commitMessage := (extracted.get? 0).map jsTrim,
      filePaths := parseFilePaths ((extracted.get? 2).getD []) }

/-- Two-stage `planCodeChanges` (src/plan.ts lines 71-139), as a function of
the two LLM responses: stage 1 extracts the two file-path lists; on failure
the plan is empty.  Stage 2 extracts `[Commit Message, Plan]`; on failure the
plan keeps only the stage-1 modified file paths. -/
def planTwoStage (filesResponse planResponse : Str) : ResolutionPlan :=
  match extractHeaderContents (trimCodeBlockFences filesResponse)
      [HEADING_OF_FILE_PATHS_TO_BE_MODIFIED, HEADING_OF_FILE_PATHS_TO_BE_REFERRED] with
  | none => { plan := none, commitMessage := none, filePaths := [] }
  | some lists =>
    match extractHeaderContents (trimCodeBlockFences planResponse)
        [HEADING_OF_COMMIT_MESSAGE, HEADING_OF_PLAN] with
    | none =>
      { plan := none, commitMessage := none,
        filePaths := parseFilePaths ((lists.get? 0).getD []) }
    | some extracted =>
      { plan := extracted.get? 1,
        commitMessage := (extracted.get? 0).map jsTrim,
        filePaths := parseFilePaths ((lists.get? 0).getD []) }

/-- A response that follows the single-stage instructed template exactly:
one fenced markdown block with the sections in the instructed order
`# Implementation Plans`, `# File Paths to be Modified`, `# Commit Message`. -/
def compliantSingleStageResponse : Str :=
  str "```md\n# Implementation Plans\n\n1. Do the thing\n\n# File Paths to be Modified\n\n- `src/a.ts`\n\n# Commit Message\n\nfeat: do the thing\n```"

/-- C1 (code bug): for a response that follows the instructed single-stage
template — the three headings present exactly once, in the instructed order
Plan, then File Paths, then Commit Message (their newline-preceded first
occurrences at strictly increasing indices 0, 41, 84) — header parsing fails,
because `planCodeChanges` extracts with the header order `[Commit Message,
Plan, File Paths to be Modified]`, and the returned `ResolutionPlan` is empty
instead of populated. -/
theorem c1_planSingleStage_headerOrder_bug :
    firstIdx ('\n' :: HEADING_OF_PLAN)
      ('\n' :: trimCodeBlockFences compliantSingleStageResponse) = some 0 ∧
    firstIdx ('\n' :: HEADING_OF_FILE_PATHS_TO_BE_MODIFIED)
      ('\n' :: trimCodeBlockFences compliantSingleStageResponse) = some 41 ∧
    firstIdx ('\n' :: HEADING_OF_COMMIT_MESSAGE)
      ('\n' :: trimCodeBlockFences compliantSingleStageResponse) = some 84 ∧
    planSingleStage compliantSingleStageResponse
      = { plan := none, commitMessage := none, filePaths := [] } := by
  set_option maxRecDepth 8000 in decide

/-- C9: graceful degradation of two-stage planning.  If stage-1 extraction
fails the result has an empty file-path list; if stage-1 succeeds and stage-2
extraction fails, the result carries exactly the stage-1 modified file paths
with `plan` and `commitMessage` absent.  (Both stages are total functions of
the responses: no exception can propagate.) -/
theorem c9_planTwoStage_degrades (r1 r2 : Str) :
    (extractHeaderContents (trimCodeBlockFences r1)
        [HEADING_OF_FILE_PATHS_TO_BE_MODIFIED, HEADING_OF_FILE_PATHS_TO_BE_REFERRED] = none →
      planTwoStage r1 r2 = { plan := none, commitMessage := none, filePaths := [] }) ∧
    (∀ lists, extractHeaderContents (trimCodeBlockFences r1)
        [HEADING_OF_FILE_PATHS_TO_BE_MODIFIED, HEADING_OF_FILE_PATHS_TO_BE_REFERRED]
          = some lists →
      extractHeaderContents (trimCodeBlockFences r2)
        [HEADING_OF_COMMIT_MESSAGE, HEADING_OF_PLAN] = none →
      planTwoStage r1 r2 = { plan := none, commitMessage := none,
                             filePaths := parseFilePaths ((lists.get? 0).getD []) }) := by
  constructor
  · intro h1
    unfold planTwoStage
    rw [h1]
  · intro lists h1 h2
    unfold planTwoStage
    rw [h1, h2]

/-- Witness for C9: a valid stage-1 response and a stage-2 response missing
the Commit Message header yield exactly the stage-1 modified paths. -/
theorem c9_planTwoStage_degrades_witness :
    planTwoStage
        (str "# File Paths to be Modified\n\n- `src/a.ts`\n\n# File Paths to be Referred\n\n- `src/b.ts`")
        (str "# Implementation Plans\n\n1. step")
      = { plan := none, commitMessage := none,
          filePaths := parseFilePaths
            ((([str "- `src/a.ts`", str "- `src/b.ts`"] : List Str).get? 0).getD []) } ∧
    parseFilePaths ((([str "- `src/a.ts`", str "- `src/b.ts`"] : List Str).get? 0).getD [])
      = [str "src/a.ts"] :=
  ⟨(c9_planTwoStage_degrades
      (str "# File Paths to be Modified\n\n- `src/a.ts`\n\n# File Paths to be Referred\n\n- `src/b.ts`")
      (str "# Implementation Plans\n\n1. step")).2
    [str "- `src/a.ts`", str "- `src/b.ts`"] (by decide) (by decide),
   by decide⟩

/-! ## `processDiffContent` (src/issue.ts lines 259-317) -/

def DIFF_MARKER : Str := str "diff --git"

/-- `diffContent.split(/(?=^diff --git)/m)`: cut before every line-start
occurrence of `diff --git` (a zero-width match at position 0 produces no
leading empty section, per the ECMAScript split algorithm). -/
def splitGo : List Char → Str → List Str
  | [], acc => [acc.reverse]
  | c :: rest, acc =>
    if c = '\n' && DIFF_MARKER.isPrefixOf rest then
      (acc.reverse ++ ['\n']) :: splitGo rest []
    else splitGo rest (c :: acc)

def splitDiffSections (d : Str) : List Str := splitGo d []

def lineStartsAux : List Char → List Str
  | [] => []
  | c :: rest => if c = '\n' then rest :: lineStartsAux rest else lineStartsAux rest

/-- The suffixes of `l` starting at position 0 or just after a newline
(the positions where `^` matches under the `m` flag). -/
def lineStarts (l : Str) : List Str := l :: lineStartsAux l

/-- The current line: characters up to the next newline (what `.*` can span). -/
def firstLineRest (s : Str) : Str := s.takeWhile (fun c => !(c = '\n'))

/-- `LARGE_FILE_PATTERNS.some((pattern) => pattern.test(section))`: the five
multiline-anchored regexes `^diff --git a\/dist\/`, `...a\/build\/`,
`...a\/.*\.bundle\.`, `...a\/.*\.min\.`, `...a\/node_modules\/`. -/
def isLargeFile (s : Str) : Bool :=
  (lineStarts s).any (fun ls =>
    (str "diff --git a/dist/").isPrefixOf ls ||
    (str "diff --git a/build/").isPrefixOf ls ||
    ((str "diff --git a/").isPrefixOf ls &&
      ((firstIdx (str ".bundle.") (firstLineRest (ls.drop 13))).isSome ||
       (firstIdx (str ".min.") (firstLineRest (ls.drop 13))).isSome)) ||
    (str "diff --git a/node_modules/").isPrefixOf ls)

/-- `section.split('\n')`. -/
def splitOnNl : List Char → List Str
  | [] => [[]]
  | c :: rest =>
    if c = '\n' then [] :: splitOnNl rest
    else
      match splitOnNl rest with
      | [] => [[c]]
      | h :: t => (c :: h) :: t

/-- The large/bundled-file stub: the first 4 lines plus `@@ ... @@`, the
truncation notice and a trailing empty line, joined with newlines. -/
def stubOf (s : Str) : Str :=
  List.intercalate ['\n'] ((splitOnNl s).take 4 ++
    [str "@@ ... @@", str "... (large bundled/compiled file diff truncated) ...", []])

def DIFF_TRUNC_NOTICE : Str := str "\n... (diff truncated) ...\n"
def REMAINING_TRUNC_NOTICE : Str := str "\n... (remaining diffs truncated) ...\n"

/-- The per-section loop of `processDiffContent`.  `totalSize > 45000` models
`totalSize > MAX_TOTAL_DIFF_SIZE * 0.9`: the double `50000 * 0.9` is
`45000.0000000000011…`, and for integer sizes comparison against it is
exactly `> 45000`. -/
def processSections : List Str → Nat → List Str
  | [], _ => []
  | s :: rest, totalSize =>
    if jsTrim s = [] then processSections rest totalSize
    else
      let processed :=
        if isLargeFile s then stubOf s
        else if 10000 < s.length then s.take 10000 ++ DIFF_TRUNC_NOTICE
        else s
      if 45000 < totalSize + processed.length then [processed, REMAINING_TRUNC_NOTICE]
      else processed :: processSections rest (totalSize + processed.length)

/-- `processDiffContent` (src/issue.ts): return diffs of at most 50000
characters unchanged, else reduce per-file sections and stop once the
accumulated size passes 90% of the cap. -/
def processDiffContent (diffContent : Str) : Str :=
  if diffContent.length ≤ 50000 then diffContent
  else List.flatten (processSections (splitDiffSections diffContent) 0)

/-! ## Symbolic evaluation lemmas for `processDiffContent` -/

theorem splitGo_append_no_nl (s : Str) (h : ∀ c ∈ s, c ≠ '\n') (l acc : Str) :
    splitGo (s ++ l) acc = splitGo l (s.reverse ++ acc) := by
  induction s generalizing acc with
  | nil => simp
  | cons c cs ih =>
    have hc : c ≠ '\n' := h c (List.mem_cons_self c cs)
    have hguard : (decide (c = '\n') && DIFF_MARKER.isPrefixOf (cs ++ l)) = false := by
      simp [hc]
    simp only [List.cons_append, splitGo, List.append_eq, hguard, Bool.false_eq_true, if_false]
    rw [ih (fun x hx => h x (List.mem_cons_of_mem _ hx))]
    simp

theorem splitGo_nl_cut {l : Str} (h : DIFF_MARKER.isPrefixOf l = true) (acc : Str) :
    splitGo ('\n' :: l) acc = (acc.reverse ++ ['\n']) :: splitGo l [] := by
  simp [splitGo, h]

theorem splitGo_nl_nocut {l : Str} (h : DIFF_MARKER.isPrefixOf l = false) (acc : Str) :
    splitGo ('\n' :: l) acc = splitGo l ('\n' :: acc) := by
  simp [splitGo, h]

theorem lineStartsAux_append_no_nl (s : Str) (h : ∀ c ∈ s, c ≠ '\n') (l : Str) :
    lineStartsAux (s ++ l) = lineStartsAux l := by
  induction s with
  | nil => simp
  | cons c cs ih =>
    have hc : c ≠ '\n' := h c (List.mem_cons_self c cs)
    simp only [List.cons_append, lineStartsAux, hc, if_false]
    exact ih (fun x hx => h x (List.mem_cons_of_mem _ hx))

theorem lineStartsAux_cons_nl (l : Str) :
    lineStartsAux ('\n' :: l) = l :: lineStartsAux l := by
  simp [lineStartsAux]

/-- One 10000-character diff section: a `diff --git a/<name>` header line
followed by a 9983-character line of `x`s. -/
def cSec (name : Str) : Str :=
  str "diff --git a/" ++ name ++ '\n' :: (List.replicate 9983 'x' ++ ['\n'])

/-- The C5 counterexample diff: five 10000-character sections and a final
16-character header-only section, 50016 characters in total. -/
def cDiff : Str :=
  cSec (str "f1") ++ (cSec (str "f2") ++ (cSec (str "f3") ++ (cSec (str "f4")
    ++ (cSec (str "f5") ++ str "diff --git a/f6\n"))))

theorem marker_prefix_strHead (X : Str) :
    DIFF_MARKER.isPrefixOf (str "diff --git a/" ++ X) = true := rfl

theorem splitGo_cSec (name rest acc : Str) (hn : ∀ c ∈ name, c ≠ '\n')
    (hrest : DIFF_MARKER.isPrefixOf rest = true) :
    splitGo (cSec name ++ rest) acc = (acc.reverse ++ cSec name) :: splitGo rest [] := by
  have hlit : ∀ c ∈ str "diff --git a/", c ≠ '\n' := by decide
  have hhead : ∀ c ∈ str "diff --git a/" ++ name, c ≠ '\n' := by
    intro c hc
    rcases List.mem_append.mp hc with h1 | h2
    · exact hlit c h1
    · exact hn c h2
  have hstep1 : cSec name ++ rest
      = (str "diff --git a/" ++ name)
          ++ ('\n' :: (List.replicate 9983 'x' ++ ('\n' :: rest))) := by
    simp only [cSec, List.append_assoc, List.cons_append, List.singleton_append,
      List.nil_append]
  have hx : DIFF_MARKER.isPrefixOf (List.replicate 9983 'x' ++ ('\n' :: rest)) = false := by
    rw [show (9983 : Nat) = 9982 + 1 from rfl, List.replicate_succ]
    rfl
  have hxs : ∀ c ∈ List.replicate 9983 'x', c ≠ '\n' := by
    intro c hc
    rw [List.eq_of_mem_replicate hc]
    decide
  calc splitGo (cSec name ++ rest) acc
      = splitGo ((str "diff --git a/" ++ name)
          ++ ('\n' :: (List.replicate 9983 'x' ++ ('\n' :: rest)))) acc := by rw [hstep1]
    _ = splitGo ('\n' :: (List.replicate 9983 'x' ++ ('\n' :: rest)))
          ((str "diff --git a/" ++ name).reverse ++ acc) :=
        splitGo_append_no_nl _ hhead _ _
    _ = splitGo (List.replicate 9983 'x' ++ ('\n' :: rest))
          ('\n' :: ((str "diff --git a/" ++ name).reverse ++ acc)) :=
        splitGo_nl_nocut hx _
    _ = splitGo ('\n' :: rest)
          ((List.replicate 9983 'x').reverse
            ++ ('\n' :: ((str "diff --git a/" ++ name).reverse ++ acc))) :=
        splitGo_append_no_nl _ hxs _ _
    _ = (((List.replicate 9983 'x').reverse
            ++ ('\n' :: ((str "diff --git a/" ++ name).reverse ++ acc))).reverse
          ++ ['\n']) :: splitGo rest [] :=
        splitGo_nl_cut hrest _
    _ = (acc.reverse ++ cSec name) :: splitGo rest [] := by
        have hhd : (((List.replicate 9983 'x').reverse
              ++ ('\n' :: ((str "diff --git a/" ++ name).reverse ++ acc))).reverse
            ++ ['\n']) = acc.reverse ++ cSec name := by
          simp only [cSec, List.reverse_append, List.reverse_cons, List.reverse_reverse,
            List.reverse_nil, List.append_assoc, List.cons_append, List.singleton_append,
            List.nil_append, List.append_nil]
        rw [hhd]

theorem marker_prefix_cSec (name rest : Str) :
    DIFF_MARKER.isPrefixOf (cSec name ++ rest) = true := by
  have h : cSec name ++ rest
      = str "diff --git a/" ++ ((name ++ '\n' :: (List.replicate 9983 'x' ++ ['\n'])) ++ rest) := by
    simp only [cSec, List.append_assoc]
  rw [h]
  exact marker_prefix_strHead _

theorem splitGo_lastSec : splitGo (str "diff --git a/f6\n") [] = [str "diff --git a/f6\n"] := by
  have h6 : str "diff --git a/f6\n" = str "diff --git a/f6" ++ ['\n'] := rfl
  rw [h6, splitGo_append_no_nl _ (by decide),
    splitGo_nl_nocut (show DIFF_MARKER.isPrefixOf ([] : Str) = false from rfl)]
  simp only [splitGo, List.reverse_cons, List.reverse_reverse, List.append_nil,
    List.reverse_nil, List.nil_append]

theorem splitDiff_cDiff : splitDiffSections cDiff
    = [cSec (str "f1"), cSec (str "f2"), cSec (str "f3"), cSec (str "f4"), cSec (str "f5"),
       str "diff --git a/f6\n"] := by
  have e5 := splitGo_cSec (str "f5") (str "diff --git a/f6\n") [] (by decide)
    (show DIFF_MARKER.isPrefixOf (str "diff --git a/f6\n") = true from rfl)
  have e4 := splitGo_cSec (str "f4")
    (cSec (str "f5") ++ str "diff --git a/f6\n") [] (by decide) (marker_prefix_cSec _ _)
  have e3 := splitGo_cSec (str "f3")
    (cSec (str "f4") ++ (cSec (str "f5") ++ str "diff --git a/f6\n")) [] (by decide)
    (marker_prefix_cSec _ _)
  have e2 := splitGo_cSec (str "f2")
    (cSec (str "f3") ++ (cSec (str "f4") ++ (cSec (str "f5") ++ str "diff --git a/f6\n")))
    [] (by decide) (marker_prefix_cSec _ _)
  have e1 := splitGo_cSec (str "f1")
    (cSec (str "f2") ++ (cSec (str "f3") ++ (cSec (str "f4")
      ++ (cSec (str "f5") ++ str "diff --git a/f6\n"))))
    [] (by decide) (marker_prefix_cSec _ _)
  simp only [List.reverse_nil, List.nil_append] at e1 e2 e3 e4 e5
  unfold splitDiffSections cDiff
  rw [e1, e2, e3, e4, e5, splitGo_lastSec]

theorem jsTrim_eq_nil_iff (l : Str) : jsTrim l = [] ↔ ∀ c ∈ l, isJsSpace c = true := by
  unfold jsTrim
  rw [List.reverse_eq_nil_iff, List.dropWhile_eq_nil_iff]
  constructor
  · intro h c hc
    have hsplit := List.takeWhile_append_dropWhile (isJsSpace ·) l
    rw [← hsplit] at hc
    rcases List.mem_append.mp hc with h1 | h2
    · exact List.mem_takeWhile_imp h1
    · exact h _ (List.mem_reverse.mpr h2)
  · intro h c hc
    exact h c ((List.dropWhile_sublist (isJsSpace ·)).mem (List.mem_reverse.mp hc))

/-- Step lemma: a kept verbatim section. -/
theorem processSections_verbatim (s : Str) (rest : List Str) (t t2 : Nat)
    (htrim : ¬ jsTrim s = []) (hlarge : isLargeFile s = false)
    (hlen : ¬ 10000 < s.length) (ht2 : t + s.length = t2) (htot : ¬ 45000 < t2) :
    processSections (s :: rest) t = s :: processSections rest t2 := by
  rw [processSections, if_neg htrim]
  simp only [hlarge, Bool.false_eq_true, if_false, if_neg hlen]
  rw [ht2, if_neg htot]

/-- Step lemma: a verbatim section that crosses the 90% cap, triggering the
final truncation notice and stopping. -/
theorem processSections_verbatim_break (s : Str) (rest : List Str) (t t2 : Nat)
    (htrim : ¬ jsTrim s = []) (hlarge : isLargeFile s = false)
    (hlen : ¬ 10000 < s.length) (ht2 : t + s.length = t2) (htot : 45000 < t2) :
    processSections (s :: rest) t = [s, REMAINING_TRUNC_NOTICE] := by
  rw [processSections, if_neg htrim]
  simp only [hlarge, Bool.false_eq_true, if_false, if_neg hlen]
  rw [ht2, if_pos htot]

/-- Step lemma: an over-cap section truncated to 10000 characters, which also
crosses the 90% cap. -/
theorem processSections_truncate_break (s : Str) (rest : List Str) (t t2 : Nat)
    (htrim : ¬ jsTrim s = []) (hlarge : isLargeFile s = false)
    (hlen : 10000 < s.length)
    (ht2 : t + (s.take 10000 ++ DIFF_TRUNC_NOTICE).length = t2) (htot : 45000 < t2) :
    processSections (s :: rest) t
      = [s.take 10000 ++ DIFF_TRUNC_NOTICE, REMAINING_TRUNC_NOTICE] := by
  rw [processSections, if_neg htrim]
  simp only [hlarge, Bool.false_eq_true, if_false, if_pos hlen]
  rw [ht2, if_pos htot]

theorem head_no_nl (name : Str) (hn : ∀ c ∈ name, c ≠ '\n') :
    ∀ c ∈ str "diff --git a/" ++ name, c ≠ '\n' := by
  have hlit : ∀ c ∈ str "diff --git a/", c ≠ '\n' := by decide
  intro c hc
  rcases List.mem_append.mp hc with h1 | h2
  · exact hlit c h1
  · exact hn c h2

theorem repl_no_nl : ∀ c ∈ List.replicate 9983 'x', c ≠ '\n' := by
  intro c hc
  rw [List.eq_of_mem_replicate hc]
  decide

theorem lineStartsAux_cSec (name : Str) (hn : ∀ c ∈ name, c ≠ '\n') :
    lineStartsAux (cSec name) = [List.replicate 9983 'x' ++ ['\n'], []] := by
  calc lineStartsAux (cSec name)
      = lineStartsAux ((str "diff --git a/" ++ name)
          ++ ('\n' :: (List.replicate 9983 'x' ++ ['\n']))) := by unfold cSec; rfl
    _ = lineStartsAux ('\n' :: (List.replicate 9983 'x' ++ ['\n'])) :=
        lineStartsAux_append_no_nl _ (head_no_nl name hn) _
    _ = (List.replicate 9983 'x' ++ ['\n'])
          :: lineStartsAux (List.replicate 9983 'x' ++ ['\n']) :=
        lineStartsAux_cons_nl _
    _ = (List.replicate 9983 'x' ++ ['\n']) :: lineStartsAux ['\n'] := by
        rw [lineStartsAux_append_no_nl _ repl_no_nl ['\n']]
    _ = [List.replicate 9983 'x' ++ ['\n'], []] := by
        rw [lineStartsAux_cons_nl]
        rfl

theorem lineStartsAux_cSecRem (name : Str) (hn : ∀ c ∈ name, c ≠ '\n') :
    lineStartsAux (cSec name ++ REMAINING_TRUNC_NOTICE)
      = [List.replicate 9983 'x' ++ ('\n' :: REMAINING_TRUNC_NOTICE),
         REMAINING_TRUNC_NOTICE,
         str "... (remaining diffs truncated) ..." ++ ['\n'], []] := by
  have hmid : ∀ c ∈ str "... (remaining diffs truncated) ...", c ≠ '\n' := by decide
  have hrem : REMAINING_TRUNC_NOTICE
      = '\n' :: (str "... (remaining diffs truncated) ..." ++ ['\n']) := rfl
  calc lineStartsAux (cSec name ++ REMAINING_TRUNC_NOTICE)
      = lineStartsAux ((str "diff --git a/" ++ name)
          ++ ('\n' :: (List.replicate 9983 'x' ++ ('\n' :: REMAINING_TRUNC_NOTICE)))) := by
        simp only [cSec, List.append_assoc, List.cons_append, List.singleton_append,
          List.nil_append]
    _ = lineStartsAux ('\n' :: (List.replicate 9983 'x' ++ ('\n' :: REMAINING_TRUNC_NOTICE))) :=
        lineStartsAux_append_no_nl _ (head_no_nl name hn) _
    _ = (List.replicate 9983 'x' ++ ('\n' :: REMAINING_TRUNC_NOTICE))
          :: lineStartsAux (List.replicate 9983 'x' ++ ('\n' :: REMAINING_TRUNC_NOTICE)) :=
        lineStartsAux_cons_nl _
    _ = (List.replicate 9983 'x' ++ ('\n' :: REMAINING_TRUNC_NOTICE))
          :: lineStartsAux ('\n' :: REMAINING_TRUNC_NOTICE) := by
        rw [lineStartsAux_append_no_nl _ repl_no_nl]
    _ = (List.replicate 9983 'x' ++ ('\n' :: REMAINING_TRUNC_NOTICE))
          :: REMAINING_TRUNC_NOTICE :: lineStartsAux REMAINING_TRUNC_NOTICE :=
        congrArg _ (lineStartsAux_cons_nl _)
    _ = (List.replicate 9983 'x' ++ ('\n' :: REMAINING_TRUNC_NOTICE))
          :: REMAINING_TRUNC_NOTICE
          :: lineStartsAux ('\n' :: (str "... (remaining diffs truncated) ..." ++ ['\n'])) := by
        rw [← hrem]
    _ = (List.replicate 9983 'x' ++ ('\n' :: REMAINING_TRUNC_NOTICE))
          :: REMAINING_TRUNC_NOTICE
          :: (str "... (remaining diffs truncated) ..." ++ ['\n'])
          :: lineStartsAux (str "... (remaining diffs truncated) ..." ++ ['\n']) := by
        rw [lineStartsAux_cons_nl]
    _ = (List.replicate 9983 'x' ++ ('\n' :: REMAINING_TRUNC_NOTICE))
          :: REMAINING_TRUNC_NOTICE
          :: (str "... (remaining diffs truncated) ..." ++ ['\n'])
          :: lineStartsAux ['\n'] := by
        rw [lineStartsAux_append_no_nl _ hmid]
    _ = [List.replicate 9983 'x' ++ ('\n' :: REMAINING_TRUNC_NOTICE),
         REMAINING_TRUNC_NOTICE,
         str "... (remaining diffs truncated) ..." ++ ['\n'], []] := by
        rw [lineStartsAux_cons_nl]
        rfl

set_option maxRecDepth 4000 in
theorem isLargeFile_f1 : isLargeFile (cSec (str "f1")) = false := by
  unfold isLargeFile lineStarts
  rw [lineStartsAux_cSec (str "f1") (by decide)]
  simp only [List.any_cons, List.any_nil, Bool.or_false]
  rfl

set_option maxRecDepth 4000 in
theorem isLargeFile_f2 : isLargeFile (cSec (str "f2")) = false := by
  unfold isLargeFile lineStarts
  rw [lineStartsAux_cSec (str "f2") (by decide)]
  simp only [List.any_cons, List.any_nil, Bool.or_false]
  rfl

set_option maxRecDepth 4000 in
theorem isLargeFile_f3 : isLargeFile (cSec (str "f3")) = false := by
  unfold isLargeFile lineStarts
  rw [lineStartsAux_cSec (str "f3") (by decide)]
  simp only [List.any_cons, List.any_nil, Bool.or_false]
  rfl

set_option maxRecDepth 4000 in
theorem isLargeFile_f4 : isLargeFile (cSec (str "f4")) = false := by
  unfold isLargeFile lineStarts
  rw [lineStartsAux_cSec (str "f4") (by decide)]
  simp only [List.any_cons, List.any_nil, Bool.or_false]
  rfl

set_option maxRecDepth 4000 in
theorem isLargeFile_f5 : isLargeFile (cSec (str "f5")) = false := by
  unfold isLargeFile lineStarts
  rw [lineStartsAux_cSec (str "f5") (by decide)]
  simp only [List.any_cons, List.any_nil, Bool.or_false]
  rfl

set_option maxRecDepth 4000 in
theorem isLargeFile_f5R :
    isLargeFile (cSec (str "f5") ++ REMAINING_TRUNC_NOTICE) = false := by
  unfold isLargeFile lineStarts
  rw [lineStartsAux_cSecRem (str "f5") (by decide)]
  simp only [List.any_cons, List.any_nil, Bool.or_false]
  rfl

theorem jsTrim_cSec_ne (name : Str) : ¬ jsTrim (cSec name) = [] := by
  rw [jsTrim_eq_nil_iff]
  intro h
  have hd : 'd' ∈ cSec name := by
    unfold cSec
    exact List.mem_append_left _ (List.mem_append_left _ (by decide))
  exact absurd (h 'd' hd) (by decide)

theorem jsTrim_cSecRem_ne (name : Str) :
    ¬ jsTrim (cSec name ++ REMAINING_TRUNC_NOTICE) = [] := by
  rw [jsTrim_eq_nil_iff]
  intro h
  have hd : 'd' ∈ cSec name ++ REMAINING_TRUNC_NOTICE := by
    apply List.mem_append_left
    unfold cSec
    exact List.mem_append_left _ (List.mem_append_left _ (by decide))
  exact absurd (h 'd' hd) (by decide)

theorem len_cSec (name : Str) (h : name.length = 2) : (cSec name).length = 10000 := by
  have h13 : (str "diff --git a/").length = 13 := rfl
  unfold cSec
  simp only [List.length_append, List.length_cons, List.length_replicate, h13, h,
    List.length_singleton, List.length_nil]

theorem len_f1 : (cSec (str "f1")).length = 10000 := len_cSec _ (by rfl)
theorem len_f2 : (cSec (str "f2")).length = 10000 := len_cSec _ (by rfl)
theorem len_f3 : (cSec (str "f3")).length = 10000 := len_cSec _ (by rfl)
theorem len_f4 : (cSec (str "f4")).length = 10000 := len_cSec _ (by rfl)
theorem len_f5 : (cSec (str "f5")).length = 10000 := len_cSec _ (by rfl)

theorem len_REM : REMAINING_TRUNC_NOTICE.length = 37 := rfl

theorem len_DT : DIFF_TRUNC_NOTICE.length = 26 := rfl

theorem len_last : (str "diff --git a/f6\n").length = 16 := rfl

theorem len_cDiff : cDiff.length = 50016 := by
  unfold cDiff
  simp only [List.length_append, len_f1, len_f2, len_f3, len_f4, len_f5, len_last]

theorem len_cSecRem : (cSec (str "f5") ++ REMAINING_TRUNC_NOTICE).length = 10037 := by
  simp only [List.length_append, len_f5, len_REM]

theorem take_cSecRem :
    (cSec (str "f5") ++ REMAINING_TRUNC_NOTICE).take 10000 = cSec (str "f5") :=
  List.take_left' len_f5

/-- First-pass section processing of the counterexample diff. -/
theorem processSections_cDiff :
    processSections [cSec (str "f1"), cSec (str "f2"), cSec (str "f3"), cSec (str "f4"),
      cSec (str "f5"), str "diff --git a/f6\n"] 0
    = [cSec (str "f1"), cSec (str "f2"), cSec (str "f3"), cSec (str "f4"), cSec (str "f5"),
       REMAINING_TRUNC_NOTICE] := by
  have hnot : ∀ n : Nat, n = 10000 → ¬ 10000 < n := by omega
  calc processSections [cSec (str "f1"), cSec (str "f2"), cSec (str "f3"), cSec (str "f4"),
      cSec (str "f5"), str "diff --git a/f6\n"] 0
      = cSec (str "f1") :: processSections [cSec (str "f2"), cSec (str "f3"), cSec (str "f4"),
          cSec (str "f5"), str "diff --git a/f6\n"] 10000 :=
        processSections_verbatim _ _ 0 10000 (jsTrim_cSec_ne _) isLargeFile_f1
          (hnot _ len_f1) (by rw [len_f1]) (by omega)
    _ = cSec (str "f1") :: cSec (str "f2") :: processSections [cSec (str "f3"), cSec (str "f4"),
          cSec (str "f5"), str "diff --git a/f6\n"] 20000 := by
        rw [processSections_verbatim _ _ 10000 20000 (jsTrim_cSec_ne _) isLargeFile_f2
          (hnot _ len_f2) (by rw [len_f2]) (by omega)]
    _ = cSec (str "f1") :: cSec (str "f2") :: cSec (str "f3") :: processSections
          [cSec (str "f4"), cSec (str "f5"), str "diff --git a/f6\n"] 30000 := by
        rw [processSections_verbatim _ _ 20000 30000 (jsTrim_cSec_ne _) isLargeFile_f3
          (hnot _ len_f3) (by rw [len_f3]) (by omega)]
    _ = cSec (str "f1") :: cSec (str "f2") :: cSec (str "f3") :: cSec (str "f4") ::
          processSections [cSec (str "f5"), str "diff --git a/f6\n"] 40000 := by
        rw [processSections_verbatim _ _ 30000 40000 (jsTrim_cSec_ne _) isLargeFile_f4
          (hnot _ len_f4) (by rw [len_f4]) (by omega)]
    _ = cSec (str "f1") :: cSec (str "f2") :: cSec (str "f3") :: cSec (str "f4") ::
          [cSec (str "f5"), REMAINING_TRUNC_NOTICE] := by
        rw [processSections_verbatim_break _ _ 40000 50000 (jsTrim_cSec_ne _) isLargeFile_f5
          (hnot _ len_f5) (by rw [len_f5]) (by omega)]

/-- The first-pass output: 50037 characters. -/
def cO1 : Str :=
  cSec (str "f1") ++ (cSec (str "f2") ++ (cSec (str "f3")
    ++ (cSec (str "f4") ++ (cSec (str "f5") ++ REMAINING_TRUNC_NOTICE))))

theorem processDiff_cDiff : processDiffContent cDiff = cO1 := by
  have hbig : ¬ cDiff.length ≤ 50000 := by rw [len_cDiff]; omega
  calc processDiffContent cDiff
      = List.flatten (processSections (splitDiffSections cDiff) 0) := by
        unfold processDiffContent
        rw [if_neg hbig]
    _ = List.flatten (processSections [cSec (str "f1"), cSec (str "f2"), cSec (str "f3"),
          cSec (str "f4"), cSec (str "f5"), str "diff --git a/f6\n"] 0) := by
        rw [splitDiff_cDiff]
    _ = List.flatten [cSec (str "f1"), cSec (str "f2"), cSec (str "f3"), cSec (str "f4"),
          cSec (str "f5"), REMAINING_TRUNC_NOTICE] := by
        rw [processSections_cDiff]
    _ = cO1 := by
        simp only [List.flatten_cons, List.flatten_nil, List.append_nil, cO1]

theorem len_cO1 : cO1.length = 50037 := by
  unfold cO1
  simp only [List.length_append, len_f1, len_f2, len_f3, len_f4, len_f5, len_REM]

/-- The final first-pass section of the second pass: the glued-on truncation
notice contains no `diff --git` line, so the whole tail is one section. -/
theorem splitGo_cSecRem (name acc : Str) (hn : ∀ c ∈ name, c ≠ '\n') :
    splitGo (cSec name ++ REMAINING_TRUNC_NOTICE) acc
      = [acc.reverse ++ (cSec name ++ REMAINING_TRUNC_NOTICE)] := by
  have hmid : ∀ c ∈ str "... (remaining diffs truncated) ...", c ≠ '\n' := by decide
  have hrem : REMAINING_TRUNC_NOTICE
      = '\n' :: (str "... (remaining diffs truncated) ..." ++ ['\n']) := rfl
  have hx : DIFF_MARKER.isPrefixOf
      (List.replicate 9983 'x' ++ ('\n' :: REMAINING_TRUNC_NOTICE)) = false := by
    rw [show (9983 : Nat) = 9982 + 1 from rfl, List.replicate_succ]
    rfl
  calc splitGo (cSec name ++ REMAINING_TRUNC_NOTICE) acc
      = splitGo ((str "diff --git a/" ++ name)
          ++ ('\n' :: (List.replicate 9983 'x' ++ ('\n' :: REMAINING_TRUNC_NOTICE)))) acc := by
        simp only [cSec, List.append_assoc, List.cons_append, List.singleton_append,
          List.nil_append]
    _ = splitGo ('\n' :: (List.replicate 9983 'x' ++ ('\n' :: REMAINING_TRUNC_NOTICE)))
          ((str "diff --git a/" ++ name).reverse ++ acc) :=
        splitGo_append_no_nl _ (head_no_nl name hn) _ _
    _ = splitGo (List.replicate 9983 'x' ++ ('\n' :: REMAINING_TRUNC_NOTICE))
          ('\n' :: ((str "diff --git a/" ++ name).reverse ++ acc)) :=
        splitGo_nl_nocut hx _
    _ = splitGo ('\n' :: REMAINING_TRUNC_NOTICE)
          ((List.replicate 9983 'x').reverse
            ++ ('\n' :: ((str "diff --git a/" ++ name).reverse ++ acc))) :=
        splitGo_append_no_nl _ repl_no_nl _ _
    _ = splitGo REMAINING_TRUNC_NOTICE
          ('\n' :: ((List.replicate 9983 'x').reverse
            ++ ('\n' :: ((str "diff --git a/" ++ name).reverse ++ acc)))) :=
        splitGo_nl_nocut (by rw [hrem]; rfl) _
    _ = splitGo ('\n' :: (str "... (remaining diffs truncated) ..." ++ ['\n']))
          ('\n' :: ((List.replicate 9983 'x').reverse
            ++ ('\n' :: ((str "diff --git a/" ++ name).reverse ++ acc)))) := by
        rw [← hrem]
    _ = splitGo (str "... (remaining diffs truncated) ..." ++ ['\n'])
          ('\n' :: '\n' :: ((List.replicate 9983 'x').reverse
            ++ ('\n' :: ((str "diff --git a/" ++ name).reverse ++ acc)))) :=
        splitGo_nl_nocut (show DIFF_MARKER.isPrefixOf
          (str "... (remaining diffs truncated) ..." ++ ['\n']) = false from rfl) _
    _ = splitGo ['\n']
          ((str "... (remaining diffs truncated) ...").reverse
            ++ ('\n' :: '\n' :: ((List.replicate 9983 'x').reverse
              ++ ('\n' :: ((str "diff --git a/" ++ name).reverse ++ acc))))) :=
        splitGo_append_no_nl _ hmid _ _
    _ = splitGo []
          ('\n' :: ((str "... (remaining diffs truncated) ...").reverse
            ++ ('\n' :: '\n' :: ((List.replicate 9983 'x').reverse
              ++ ('\n' :: ((str "diff --git a/" ++ name).reverse ++ acc)))))) :=
        splitGo_nl_nocut (show DIFF_MARKER.isPrefixOf ([] : Str) = false from rfl) _
    _ = [('\n' :: ((str "... (remaining diffs truncated) ...").reverse
          ++ ('\n' :: '\n' :: ((List.replicate 9983 'x').reverse
            ++ ('\n' :: ((str "diff --git a/" ++ name).reverse ++ acc)))))).reverse] := rfl
    _ = [acc.reverse ++ (cSec name ++ REMAINING_TRUNC_NOTICE)] := by
        have hhd : ('\n' :: ((str "... (remaining diffs truncated) ...").reverse
            ++ ('\n' :: '\n' :: ((List.replicate 9983 'x').reverse
              ++ ('\n' :: ((str "diff --git a/" ++ name).reverse ++ acc)))))).reverse
            = acc.reverse ++ (cSec name ++ REMAINING_TRUNC_NOTICE) := by
          rw [hrem]
          simp only [cSec, List.reverse_cons, List.reverse_append, List.reverse_reverse,
            List.reverse_nil, List.append_assoc, List.cons_append, List.singleton_append,
            List.nil_append, List.append_nil]
        rw [hhd]

theorem splitDiff_cO1 : splitDiffSections cO1
    = [cSec (str "f1"), cSec (str "f2"), cSec (str "f3"), cSec (str "f4"),
       cSec (str "f5") ++ REMAINING_TRUNC_NOTICE] := by
  have e4 := splitGo_cSec (str "f4")
    (cSec (str "f5") ++ REMAINING_TRUNC_NOTICE) [] (by decide) (marker_prefix_cSec _ _)
  have e3 := splitGo_cSec (str "f3")
    (cSec (str "f4") ++ (cSec (str "f5") ++ REMAINING_TRUNC_NOTICE)) [] (by decide)
    (marker_prefix_cSec _ _)
  have e2 := splitGo_cSec (str "f2")
    (cSec (str "f3") ++ (cSec (str "f4") ++ (cSec (str "f5") ++ REMAINING_TRUNC_NOTICE)))
    [] (by decide) (marker_prefix_cSec _ _)
  have e1 := splitGo_cSec (str "f1")
    (cSec (str "f2") ++ (cSec (str "f3") ++ (cSec (str "f4")
      ++ (cSec (str "f5") ++ REMAINING_TRUNC_NOTICE))))
    [] (by decide) (marker_prefix_cSec _ _)
  have e5 := splitGo_cSecRem (str "f5") [] (by decide)
  simp only [List.reverse_nil, List.nil_append] at e1 e2 e3 e4 e5
  unfold splitDiffSections cO1
  rw [e1, e2, e3, e4, e5]

/-- Second-pass section processing: the last section is now over the per-file
cap and is re-truncated, inserting a per-file notice absent from `cO1`. -/
theorem processSections_cO1 :
    processSections [cSec (str "f1"), cSec (str "f2"), cSec (str "f3"), cSec (str "f4"),
      cSec (str "f5") ++ REMAINING_TRUNC_NOTICE] 0
    = [cSec (str "f1"), cSec (str "f2"), cSec (str "f3"), cSec (str "f4"),
       cSec (str "f5") ++ DIFF_TRUNC_NOTICE, REMAINING_TRUNC_NOTICE] := by
  have hnot : ∀ n : Nat, n = 10000 → ¬ 10000 < n := by omega
  have hlast : processSections [cSec (str "f5") ++ REMAINING_TRUNC_NOTICE] 40000
      = [cSec (str "f5") ++ DIFF_TRUNC_NOTICE, REMAINING_TRUNC_NOTICE] := by
    have hstep := processSections_truncate_break
      (cSec (str "f5") ++ REMAINING_TRUNC_NOTICE) [] 40000 50026
      (jsTrim_cSecRem_ne _) isLargeFile_f5R (by rw [len_cSecRem]; omega)
      (by rw [take_cSecRem]; simp only [List.length_append, len_f5, len_DT]) (by omega)
    rw [hstep, take_cSecRem]
  calc processSections [cSec (str "f1"), cSec (str "f2"), cSec (str "f3"), cSec (str "f4"),
      cSec (str "f5") ++ REMAINING_TRUNC_NOTICE] 0
      = cSec (str "f1") :: processSections [cSec (str "f2"), cSec (str "f3"), cSec (str "f4"),
          cSec (str "f5") ++ REMAINING_TRUNC_NOTICE] 10000 :=
        processSections_verbatim _ _ 0 10000 (jsTrim_cSec_ne _) isLargeFile_f1
          (hnot _ len_f1) (by rw [len_f1]) (by omega)
    _ = cSec (str "f1") :: cSec (str "f2") :: processSections [cSec (str "f3"),
          cSec (str "f4"), cSec (str "f5") ++ REMAINING_TRUNC_NOTICE] 20000 := by
        rw [processSections_verbatim _ _ 10000 20000 (jsTrim_cSec_ne _) isLargeFile_f2
          (hnot _ len_f2) (by rw [len_f2]) (by omega)]
    _ = cSec (str "f1") :: cSec (str "f2") :: cSec (str "f3") :: processSections
          [cSec (str "f4"), cSec (str "f5") ++ REMAINING_TRUNC_NOTICE] 30000 := by
        rw [processSections_verbatim _ _ 20000 30000 (jsTrim_cSec_ne _) isLargeFile_f3
          (hnot _ len_f3) (by rw [len_f3]) (by omega)]
    _ = cSec (str "f1") :: cSec (str "f2") :: cSec (str "f3") :: cSec (str "f4") ::
          processSections [cSec (str "f5") ++ REMAINING_TRUNC_NOTICE] 40000 := by
        rw [processSections_verbatim _ _ 30000 40000 (jsTrim_cSec_ne _) isLargeFile_f4
          (hnot _ len_f4) (by rw [len_f4]) (by omega)]
    _ = cSec (str "f1") :: cSec (str "f2") :: cSec (str "f3") :: cSec (str "f4") ::
          [cSec (str "f5") ++ DIFF_TRUNC_NOTICE, REMAINING_TRUNC_NOTICE] := by
        rw [hlast]

/-- The second-pass output: 50063 characters, differing from `cO1`. -/
def cO2 : Str :=
  cSec (str "f1") ++ (cSec (str "f2") ++ (cSec (str "f3")
    ++ (cSec (str "f4") ++ ((cSec (str "f5") ++ DIFF_TRUNC_NOTICE)
      ++ REMAINING_TRUNC_NOTICE))))

theorem processDiff_cO1 : processDiffContent cO1 = cO2 := by
  have hbig : ¬ cO1.length ≤ 50000 := by rw [len_cO1]; omega
  calc processDiffContent cO1
      = List.flatten (processSections (splitDiffSections cO1) 0) := by
        unfold processDiffContent
        rw [if_neg hbig]
    _ = List.flatten (processSections [cSec (str "f1"), cSec (str "f2"), cSec (str "f3"),
          cSec (str "f4"), cSec (str "f5") ++ REMAINING_TRUNC_NOTICE] 0) := by
        rw [splitDiff_cO1]
    _ = List.flatten [cSec (str "f1"), cSec (str "f2"), cSec (str "f3"), cSec (str "f4"),
          cSec (str "f5") ++ DIFF_TRUNC_NOTICE, REMAINING_TRUNC_NOTICE] := by
        rw [processSections_cO1]
    _ = cO2 := by
        simp only [List.flatten_cons, List.flatten_nil, List.append_nil, cO2]

theorem len_cO2 : cO2.length = 50063 := by
  unfold cO2
  simp only [List.length_append, len_f1, len_f2, len_f3, len_f4, len_f5, len_REM, len_DT]

/-- C5 counterexample: `processDiffContent` is not idempotent.  On the
50016-character diff `cDiff` the first pass emits 50037 characters (the last
kept section plus the final truncation notice), and the second pass re-splits
that output, finds the glued last section over the per-file cap, and truncates
it again, emitting 50063 different characters. -/
theorem c5_processDiffContent_not_idempotent :
    processDiffContent (processDiffContent cDiff) ≠ processDiffContent cDiff := by
  rw [processDiff_cDiff, processDiff_cO1]
  intro h
  have hlen := congrArg List.length h
  rw [len_cO1, len_cO2] at hlen
  exact absurd hlen (by omega)

theorem processDiffContent_of_le {d : Str} (h : d.length ≤ 50000) :
    processDiffContent d = d := by
  unfold processDiffContent
  rw [if_pos h]

/-- C5 (amended): every diff of length at most 50000 is returned unchanged,
and `processDiffContent` is idempotent on every input whose first-pass output
is within the 50000-character cap (the unconditional claim fails:
`c5_processDiffContent_not_idempotent`). -/
theorem c5_processDiffContent_idempotent_amended (d : Str) :
    (d.length ≤ 50000 → processDiffContent d = d) ∧
    ((processDiffContent d).length ≤ 50000 →
      processDiffContent (processDiffContent d) = processDiffContent d) :=
  ⟨fun h => processDiffContent_of_le h, fun h => processDiffContent_of_le h⟩

/-- Witness for the amended C5 at a concrete small diff. -/
theorem c5_processDiffContent_idempotent_amended_witness :
    processDiffContent (str "diff --git a/x\nsmall\n") = str "diff --git a/x\nsmall\n" :=
  (c5_processDiffContent_idempotent_amended (str "diff --git a/x\nsmall\n")).1 (by decide)

/-! ## `src/text.ts` -/

/-- `stripHtmlComments` (src/text.ts): `replace(/<!--[\s\S]*?-->/g, '')`.
The global non-greedy regex removes, repeatedly, the text from each `<!--` to
the nearest following `-->`; an unterminated `<!--` is left as-is.  The fuel
argument (one per removed comment, `length + 1` is ample) only makes the
recursion structural. -/
def stripHtmlCommentsF : Nat → Str → Str
  | 0, l => l
  | fuel + 1, l =>
    match firstIdx (str "<!--") l with
    | none => l
    | some i =>
      match firstIdx (str "-->") (l.drop (i + 4)) with
      | none => l
      | some j => l.take i ++ stripHtmlCommentsF fuel ((l.drop (i + 4)).drop (j + 3))

def stripHtmlComments (l : Str) : Str := stripHtmlCommentsF (l.length + 1) l

/-- `stripMetadataSections` (src/text.ts): everything strictly before the
first occurrence of the metadata heading, if present. -/
def HEADING_OF_GEN_PR_METADATA : Str := str "## gen-pr Metadata"

def stripMetadataSections (l : Str) : Str :=
  match firstIdx HEADING_OF_GEN_PR_METADATA l with
  | none => l
  | some i => l.take i

/-- `text.replaceAll('\r\n', '\n')`: left-to-right, non-overlapping. -/
def replaceCrLf : Str → Str
  | [] => []
  | '\r' :: '\n' :: rest => '\n' :: replaceCrLf rest
  | c :: rest => c :: replaceCrLf rest

/-- `normalizeNewLines` (src/text.ts). -/
def normalizeNewLines (l : Str) : Str := jsTrim (replaceCrLf l)

/-- `removeRegexPattern` (src/text.ts): the empty pattern returns the text
unchanged; a non-empty pattern delegates to the external regex engine
(`new RegExp(pattern, 'g')` + `replace`), abstracted as the oracle
`regexRemove` (an invalid pattern, caught and warned about in the source,
is modelled by an oracle that returns the text unchanged). -/
def removeRegexPattern (regexRemove : Str → Str → Str) (text pattern : Str) : Str :=
  if pattern = [] then text else regexRemove pattern text

/-! ## `src/issue.ts`: data model

`gh` CLI calls and their JSON parsing are the external API collaborator;
timestamps carry the already-parsed `new Date(...).getTime()` value. -/

structure GitHubComment where
  author : Str
  body : Str
  createdAt : Int
deriving DecidableEq

structure GitHubIssue where
  author : Str
  title : Str
  body : Str
  comments : List GitHubComment
  url : Str
deriving DecidableEq

/-- A review-thread comment from the GraphQL response; `author = none` models
a missing author object, an empty `path`/`diffHunk` and a zero `line` model
the absent (falsy) fields. -/
structure ThreadComment where
  author : Option Str
  body : Str
  path : Str
  line : Nat
  diffHunk : Str
  createdAt : Int
deriving DecidableEq

structure ReviewThread where
  isResolved : Bool
  comments : List ThreadComment
deriving DecidableEq

structure GitHubReview where
  user : Str
  state : Str
  body : Str
  submitted_at : Int
deriving DecidableEq

/-- `IssueComment` (src/types.ts). -/
structure IssueComment where
  author : Str
  codeLocation : Option Str
  codeContent : Option Str
  reviewState : Option Str
  body : Str
deriving DecidableEq

/-- `IssueCommentWithDate` (src/issue.ts): an `IssueComment` still carrying
its creation time for sorting. -/
structure IssueCommentWithDate where
  author : Str
  codeLocation : Option Str
  codeContent : Option Str
  reviewState : Option Str
  body : Str
  createdAt : Int
deriving DecidableEq

/-- The `map (\{createdAt, ...comment}) => comment)` projection. -/
def stripDate (c : IssueCommentWithDate) : IssueComment :=
  { author := c.author, codeLocation := c.codeLocation, codeContent := c.codeContent,
    reviewState := c.reviewState, body := c.body }

/-- `IssueInfo` (src/types.ts). -/
structure IssueInfo where
  author : Str
  title : Str
  description : Str
  comments : List IssueComment
  code_changes : Option Str
  referenced_issues : Option (List IssueInfo)

/-- The external `gh`/GraphQL collaborator: a finite table of issues (so the
recursive fetch has a finite world to terminate in), the PR diff text, the
review threads and reviews (`none` models a failed or empty fetch, which the
source catches and skips), and the regex-removal engine. -/
structure GhState where
  issues : List (Nat × GitHubIssue)
  prDiff : Nat → Str
  reviewThreads : Nat → Option (List ReviewThread)
  reviews : Nat → Option (List GitHubReview)
  regexRemove : Str → Str → Str

/-- `gh issue view <n> --json ...`: empty stdout models a missing issue. -/
def lookupIssue (st : GhState) (n : Nat) : Option GitHubIssue :=
  (st.issues.find? (fun p => p.1 = n)).map (fun p => p.2)

/-! ## `extractIssueReferences` (src/issue.ts) -/

def digitRun (l : Str) : Str := l.takeWhile (fun c => c.isDigit)

/-- `Number.parseInt` on a digit string. -/
def strToNat (ds : Str) : Nat := ds.foldl (fun n c => n * 10 + (c.toNat - 48)) 0

/-- The `regex.exec` loop for `/(?:^|\s)#(\d+)/g`: a match needs `#` at the
start of the text or after a whitespace character (consumed by the match),
followed by one or more digits; scanning resumes after the digits.  Fuel
(`length + 1` is ample) only makes the recursion structural. -/
def extractRefsF : Nat → Bool → Str → List Nat
  | 0, _, _ => []
  | _ + 1, _, [] => []
  | fuel + 1, atStart, c :: rest =>
    if atStart && c = '#' then
      if digitRun rest ≠ [] then
        strToNat (digitRun rest) :: extractRefsF fuel false (rest.drop (digitRun rest).length)
      else extractRefsF fuel false rest
    else if isJsSpace c then
      match rest with
      | '#' :: rest2 =>
        if digitRun rest2 ≠ [] then
          strToNat (digitRun rest2) :: extractRefsF fuel false (rest2.drop (digitRun rest2).length)
        else extractRefsF fuel false rest
      | _ => extractRefsF fuel false rest
    else extractRefsF fuel false rest

/-- `[...new Set(numbers)]`: keep the first occurrence of each number, in
first-appearance order. -/
def dedupGo : List Nat → List Nat → List Nat
  | [], _ => []
  | n :: rest, seen =>
    if n ∈ seen then dedupGo rest seen else n :: dedupGo rest (n :: seen)

def extractIssueReferences (text : Str) : List Nat :=
  dedupGo (extractRefsF (text.length + 1) true text) []

/-! ## Comment conversion (src/issue.ts) -/

/-- `extractCodeFromDiffHunk`: the first `+`/`-` line of the hunk that is not
a hunk-range marker and has a trimmed length above 1. -/
def extractCodeFromDiffHunk (diffHunk : Str) : Str :=
  if diffHunk = [] then []
  else
    match (splitOnNl diffHunk).find? (fun line =>
        ((str "+").isPrefixOf line || (str "-").isPrefixOf line)
          && !(str "@@").isPrefixOf line && decide (1 < (jsTrim line).length)) with
    | none => []
    | some codeLine => if jsTrim codeLine = [] then [] else jsTrim codeLine

/-- One review-thread comment of `processReviewThreadComments`: skipped when
author or body is missing; `codeLocation` is `path:line` when both are
truthy, `codeContent` the extracted hunk line when non-empty.  (The source's
removal of `undefined` properties is the identity here: absent fields are
`none`.) -/
def convertThreadComment (tc : ThreadComment) : Option IssueCommentWithDate :=
  match tc.author with
  | none => none
  | some a =>
    if tc.body = [] then none
    else some
      { author := a,
        codeLocation :=
          if tc.path ≠ [] ∧ tc.line ≠ 0
          then some (tc.path ++ ':' :: (Nat.repr tc.line).data) else none,
        codeContent :=
          if extractCodeFromDiffHunk tc.diffHunk = [] then none
          else some (extractCodeFromDiffHunk tc.diffHunk),
        reviewState := none,
        body := normalizeNewLines tc.body,
        createdAt := tc.createdAt }

/-- `fetchPRReviewThreads`: inline comments of unresolved threads, in thread
order; a failed fetch (`none`) contributes nothing. -/
def threadCommentsOf (st : GhState) (n : Nat) : List IssueCommentWithDate :=
  match st.reviewThreads n with
  | none => []
  | some threads =>
    (threads.filter (fun t => !t.isResolved)).flatMap
      (fun t => t.comments.filterMap convertThreadComment)

/-- `fetchPRReviews`: top-level review verdicts; a failed fetch contributes
nothing. -/
def reviewCommentsOf (st : GhState) (n : Nat) : List IssueCommentWithDate :=
  match st.reviews n with
  | none => []
  | some reviews =>
    reviews.map (fun r =>
      { author := r.user, codeLocation := none, codeContent := none,
        reviewState := some r.state, body := normalizeNewLines r.body,
        createdAt := r.submitted_at })

/-- The plain issue comments, converted to the common shape. -/
def plainCommentsOf (issue : GitHubIssue) : List IssueCommentWithDate :=
  issue.comments.map (fun c =>
    { author := c.author, codeLocation := none, codeContent := none,
      reviewState := none, body := normalizeNewLines c.body, createdAt := c.createdAt })

/-! ## The stable sort by creation date

JavaScript's `Array.prototype.sort` is stable (ES2019), and a stable sort by
a fixed key has a unique result, so this insertion sort (which keeps an
earlier element before a later one with an equal key) computes exactly the
source's `sort((a, b) => a.createdAt - b.createdAt)`. -/

def sortInsert (c : IssueCommentWithDate) :
    List IssueCommentWithDate → List IssueCommentWithDate
  | [] => [c]
  | d :: rest =>
    if d.createdAt < c.createdAt then d :: sortInsert c rest else c :: d :: rest

def stableSortByDate : List IssueCommentWithDate → List IssueCommentWithDate
  | [] => []
  | c :: rest => sortInsert c (stableSortByDate rest)

/-! ## The recursive fetch (src/issue.ts `fetchIssueData` and
`fetchReferencedIssues`)

The shared `processedIssues` set is threaded through the recursion; referenced
issues are processed in first-appearance order of their reference tokens (the
source dispatches the fetches via `Promise.all` but re-assembles the results
by original index, and each call marks its number in the shared set before any
asynchronous work, which this sequential threading models).  Termination — the
content of claim C6 — is by the number of table issues not yet visited,
lexicographically with the length of the pending number list; the returned
visited set always extends the given one, which the subtype carries for the
termination proof. -/

/-- `issue.body` and all comment bodies joined with newlines. -/
def allTextOf (issue : GitHubIssue) : Str :=
  List.intercalate ['\n'] (issue.body :: issue.comments.map (fun c => c.body))

/-- Assembly of one `IssueInfo` node from a fetched issue (src/issue.ts lines
52-88): reference-stripped description, merged and date-sorted comments, the
reduced PR diff for a root pull request, and the non-empty referenced list. -/
def mkNode (st : GhState) (rp : Str) (n : Nat) (issue : GitHubIssue)
    (isReferenced : Bool) (referenced : List IssueInfo) : IssueInfo :=
  let isPR := (firstIdx (str "/pull/") issue.url).isSome
  let rawBody := stripHtmlComments issue.body
  let processedBody := if isPR then stripMetadataSections rawBody else rawBody
  let description := removeRegexPattern st.regexRemove processedBody rp
  let base := plainCommentsOf issue
  let withReviews :=
    if isPR && !isReferenced
    then base ++ threadCommentsOf st n ++ reviewCommentsOf st n else base
  { author := issue.author
    title := issue.title
    description := normalizeNewLines description
    comments := (stableSortByDate (withReviews.filter (fun c => c.body ≠ []))).map stripDate
    code_changes :=
      if isPR && !isReferenced then
        if jsTrim (st.prDiff n) = [] then none
        else some (processDiffContent (jsTrim (st.prDiff n)))
      else none
    referenced_issues := if referenced.length = 0 then none else some referenced }

/-- Number of table issues not yet visited: the termination measure. -/
def ghMeasure (st : GhState) (visited : List Nat) : Nat :=
  (st.issues.filter (fun p => p.1 ∉ visited)).length

theorem filter_imp_length_le {α : Type} (P Q : α → Bool)
    (h : ∀ x, Q x = true → P x = true) (l : List α) :
    (l.filter Q).length ≤ (l.filter P).length := by
  induction l with
  | nil => simp
  | cons a t ih =>
    by_cases hq : Q a = true
    · simp [List.filter_cons, hq, h a hq]
      omega
    · have : Q a = false := by revert hq; cases Q a <;> simp
      simp only [List.filter_cons, this, Bool.false_eq_true, if_false]
      by_cases hp : P a = true
      · simp [hp]
        omega
      · have hp2 : P a = false := by revert hp; cases P a <;> simp
        simp [hp2]
        exact ih

theorem ghMeasure_mono (st : GhState) {v w : List Nat} (h : ∀ x ∈ v, x ∈ w) :
    ghMeasure st w ≤ ghMeasure st v := by
  apply filter_imp_length_le
  intro p hp
  simp only [decide_eq_true_eq] at hp ⊢
  intro hv
  exact hp (h _ hv)

theorem filter_length_lt {α : Type} (P Q : α → Bool)
    (h : ∀ x, Q x = true → P x = true) {l : List α} {a : α}
    (ha : a ∈ l) (hPa : P a = true) (hQa : Q a = false) :
    (l.filter Q).length < (l.filter P).length := by
  induction l with
  | nil => simp at ha
  | cons b t ih =>
    rcases List.mem_cons.mp ha with hb | hb
    · subst hb
      simp only [List.filter_cons, hPa, hQa, Bool.false_eq_true, if_false, if_true,
        List.length_cons]
      have := filter_imp_length_le P Q h t
      omega
    · by_cases hQb : Q b = true
      · simp only [List.filter_cons, hQb, h b hQb, if_true, List.length_cons]
        exact Nat.succ_lt_succ (ih hb)
      · have hQb2 : Q b = false := by revert hQb; cases Q b <;> simp
        simp only [List.filter_cons, hQb2, Bool.false_eq_true, if_false]
        by_cases hPb : P b = true
        · simp only [hPb, if_true, List.length_cons]
          exact Nat.lt_succ_of_lt (ih hb)
        · have hPb2 : P b = false := by revert hPb; cases P b <;> simp
          simp only [hPb2, Bool.false_eq_true, if_false]
          exact ih hb

theorem ghMeasure_append_none (st : GhState) {n : Nat} (v : List Nat)
    (hl : lookupIssue st n = none) :
    ghMeasure st (v ++ [n]) = ghMeasure st v := by
  have hfind : st.issues.find? (fun p => p.1 = n) = none := by
    unfold lookupIssue at hl
    exact Option.map_eq_none'.mp hl
  unfold ghMeasure
  apply congrArg
  apply List.filter_congr
  intro p hp
  have hne : ¬ p.1 = n := by
    intro he
    have := List.find?_eq_none.mp hfind p hp
    simp [he] at this
  simp only [decide_eq_decide]
  constructor
  · intro hx hv
    exact hx (List.mem_append_left _ hv)
  · intro hx hv
    rcases List.mem_append.mp hv with h1 | h2
    · exact hx h1
    · simp only [List.mem_singleton] at h2
      exact hne h2

theorem ghMeasure_append_found (st : GhState) {n : Nat} {issue : GitHubIssue}
    {v : List Nat} (hv : n ∉ v) (hl : lookupIssue st n = some issue) :
    ghMeasure st (v ++ [n]) < ghMeasure st v := by
  have hmem : ∃ p ∈ st.issues, p.1 = n := by
    unfold lookupIssue at hl
    rcases Option.map_eq_some'.mp hl with ⟨q, hfind, _⟩
    refine ⟨q, List.mem_of_find?_eq_some hfind, ?_⟩
    have := List.find?_some hfind
    simpa using this
  obtain ⟨p0, hp0, hp0n⟩ := hmem
  unfold ghMeasure
  apply filter_length_lt _ _ ?_ hp0 ?_ ?_
  · intro x hx
    simp only [decide_eq_true_eq] at hx ⊢
    intro hxv
    exact hx (List.mem_append_left _ hxv)
  · simp [hp0n, hv]
  · simp [hp0n]

/-- The recursion of `fetchIssueData`/`fetchReferencedIssues` over a list of
issue numbers, threading the shared visited set.  For each number: a visited
number yields no node; a number whose fetch fails yields no node but stays
marked; otherwise the referenced numbers found in the body and comments are
fetched recursively before assembling the node. -/
def fetchGo (st : GhState) (rp : Str) :
    (numbers : List Nat) → (visited : List Nat) → (isReferenced : Bool) →
    {r : List IssueInfo × List Nat // ∀ x ∈ visited, x ∈ r.2}
  | [], v, _ => ⟨([], v), fun _ hx => hx⟩
  | n :: ms, v, isRef =>
    if hmem : n ∈ v then
      let rest := fetchGo st rp ms v isRef
      ⟨rest.val, rest.property⟩
    else
      match hlook : lookupIssue st n with
      | none =>
        let rest := fetchGo st rp ms (v ++ [n]) isRef
        ⟨rest.val, fun x hx => rest.property x (List.mem_append_left _ hx)⟩
      | some issue =>
        let sub := fetchGo st rp (extractIssueReferences (allTextOf issue)) (v ++ [n]) true
        let rest := fetchGo st rp ms sub.val.2 isRef
        ⟨(mkNode st rp n issue isRef sub.val.1 :: rest.val.1, rest.val.2),
         fun x hx => rest.property x (sub.property x (List.mem_append_left _ hx))⟩
termination_by numbers visited _ => (ghMeasure st visited, numbers.length)
decreasing_by
  · apply Prod.Lex.right
    simp only [List.length_cons]
    omega
  · rw [ghMeasure_append_none st v hlook]
    apply Prod.Lex.right
    simp only [List.length_cons]
    omega
  · apply Prod.Lex.left
    exact ghMeasure_append_found st hmem hlook
  · exact Prod.Lex.left _ _ (Nat.lt_of_le_of_lt (ghMeasure_mono st sub.property)
      (ghMeasure_append_found st hmem hlook))

/-- `fetchIssueData` (src/issue.ts line 31): fetch a single issue number. -/
def fetchIssueData (st : GhState) (rp : Str) (n : Nat) (visited : List Nat)
    (isReferenced : Bool) : Option IssueInfo × List Nat :=
  let r := (fetchGo st rp [n] visited isReferenced).val
  (r.1.head?, r.2)

/-- The synthetic cycle of claim C6: issue 1 references issue 2 and issue 2
references issue 1, both plain issues with no comments. -/
def cIssue1 : GitHubIssue :=
  { author := str "alice", title := str "first", body := str "see #2",
    comments := [], url := str "https://github.com/o/r/issues/1" }

def cIssue2 : GitHubIssue :=
  { author := str "bob", title := str "second", body := str "see #1",
    comments := [], url := str "https://github.com/o/r/issues/2" }

def cycleState : GhState :=
  { issues := [(1, cIssue1), (2, cIssue2)],
    prDiff := fun _ => [],
    reviewThreads := fun _ => none,
    reviews := fun _ => none,
    regexRemove := fun _ t => t }

theorem fetchGo_nil (st : GhState) (rp : Str) (v : List Nat) (b : Bool) :
    (fetchGo st rp [] v b).val = ([], v) := by
  rw [fetchGo]

theorem fetchGo_mem (st : GhState) (rp : Str) {n : Nat} (ms : List Nat)
    {v : List Nat} (b : Bool) (h : n ∈ v) :
    (fetchGo st rp (n :: ms) v b).val = (fetchGo st rp ms v b).val := by
  rw [fetchGo]
  rw [dif_pos h]

theorem fetchGo_none (st : GhState) (rp : Str) {n : Nat} (ms : List Nat)
    {v : List Nat} (b : Bool) (h : ¬ n ∈ v) (hl : lookupIssue st n = none) :
    (fetchGo st rp (n :: ms) v b).val = (fetchGo st rp ms (v ++ [n]) b).val := by
  rw [fetchGo]
  rw [dif_neg h]
  split
  · rfl
  · simp_all

theorem fetchGo_found (st : GhState) (rp : Str) {n : Nat} (ms : List Nat)
    {v : List Nat} (b : Bool) {issue : GitHubIssue}
    (h : ¬ n ∈ v) (hl : lookupIssue st n = some issue) :
    (fetchGo st rp (n :: ms) v b).val =
      (mkNode st rp n issue b
          (fetchGo st rp (extractIssueReferences (allTextOf issue)) (v ++ [n]) true).val.1
        :: (fetchGo st rp ms
            (fetchGo st rp (extractIssueReferences (allTextOf issue)) (v ++ [n]) true).val.2
            b).val.1,
       (fetchGo st rp ms
          (fetchGo st rp (extractIssueReferences (allTextOf issue)) (v ++ [n]) true).val.2
          b).val.2) := by
  rw [fetchGo]
  rw [dif_neg h]
  split
  · simp_all
  · rename_i issue2 hl2
    rw [hl] at hl2
    injection hl2 with he
    subst he
    rfl

/-- C6: the recursive issue fetch terminates on every reference graph (the
Lean function `fetchGo` is total by construction, on the measure of unvisited
table issues): a number already in the shared visited set immediately yields
no node, and the concrete cycle issue 1 → issue 2 → issue 1 yields a tree of
depth exactly 2 — node 1 whose only referenced child is node 2, node 2 with
no referenced children. -/
theorem c6_fetch_cycle_terminates :
    (∀ (st : GhState) (rp : Str) (n : Nat) (v : List Nat) (b : Bool),
        n ∈ v → fetchIssueData st rp n v b = (none, v)) ∧
    fetchIssueData cycleState [] 1 [] false
      = (some (mkNode cycleState [] 1 cIssue1 false
            [mkNode cycleState [] 2 cIssue2 true []]), [1, 2]) ∧
    (mkNode cycleState [] 1 cIssue1 false
        [mkNode cycleState [] 2 cIssue2 true []]).referenced_issues
      = some [mkNode cycleState [] 2 cIssue2 true []] ∧
    (mkNode cycleState [] 2 cIssue2 true []).referenced_issues = none := by
  have h1 : lookupIssue cycleState 1 = some cIssue1 := by decide
  have h2 : lookupIssue cycleState 2 = some cIssue2 := by decide
  have hr1 : extractIssueReferences (allTextOf cIssue1) = [2] := by decide
  have hr2 : extractIssueReferences (allTextOf cIssue2) = [1] := by decide
  refine ⟨?_, ?_, ?_, ?_⟩
  · intro st rp n v b h
    show ((fetchGo st rp [n] v b).val.1.head?, (fetchGo st rp [n] v b).val.2)
      = (none, v)
    rw [fetchGo_mem st rp [] b h]
    rw [fetchGo_nil]
    rfl
  · show ((fetchGo cycleState [] [1] [] false).val.1.head?,
        (fetchGo cycleState [] [1] [] false).val.2) = _
    rw [fetchGo_found cycleState [] [] false (by simp) h1]
    rw [hr1]
    simp only [List.nil_append]
    rw [fetchGo_found cycleState [] [] true (by simp) h2]
    rw [hr2]
    simp only [List.cons_append, List.nil_append]
    rw [fetchGo_mem cycleState [] [] true (by simp)]
    simp only [fetchGo_nil, List.head?_cons]
  · simp [mkNode]
  · simp [mkNode]

theorem c6_fetch_cycle_terminates_witness :
    (5 : Nat) ∈ [5] ∧ fetchIssueData cycleState [] 5 [5] true = (none, [5]) :=
  ⟨by decide, c6_fetch_cycle_terminates.1 cycleState [] 5 [5] true (by decide)⟩

theorem sortInsert_perm (c : IssueCommentWithDate)
    (l : List IssueCommentWithDate) : (sortInsert c l).Perm (c :: l) := by
  induction l with
  | nil => simp [sortInsert]
  | cons d rest ih =>
    by_cases h : d.createdAt < c.createdAt
    · simp only [sortInsert, if_pos h]
      exact (ih.cons d).trans (List.Perm.swap c d rest)
    · simp only [sortInsert, if_neg h]
      exact List.Perm.refl _

theorem stableSortByDate_perm (l : List IssueCommentWithDate) :
    (stableSortByDate l).Perm l := by
  induction l with
  | nil => simp [stableSortByDate]
  | cons c rest ih =>
    simp only [stableSortByDate]
    exact (sortInsert_perm c _).trans (ih.cons c)

theorem sortInsert_pairwise (c : IssueCommentWithDate)
    {l : List IssueCommentWithDate}
    (h : List.Pairwise (fun a b => a.createdAt ≤ b.createdAt) l) :
    List.Pairwise (fun a b => a.createdAt ≤ b.createdAt) (sortInsert c l) := by
  induction l with
  | nil => simp [sortInsert]
  | cons d rest ih =>
    rcases List.pairwise_cons.mp h with ⟨hd, hrest⟩
    by_cases hlt : d.createdAt < c.createdAt
    · simp only [sortInsert, if_pos hlt]
      apply List.pairwise_cons.mpr
      refine ⟨?_, ih hrest⟩
      intro x hx
      rcases List.mem_cons.mp ((sortInsert_perm c rest).mem_iff.mp hx) with hxc | hxr
      · subst hxc
        exact le_of_lt hlt
      · exact hd x hxr
    · simp only [sortInsert, if_neg hlt]
      apply List.pairwise_cons.mpr
      refine ⟨?_, h⟩
      intro x hx
      rcases List.mem_cons.mp hx with hxd | hxr
      · subst hxd
        exact le_of_not_lt hlt
      · exact le_trans (le_of_not_lt hlt) (hd x hxr)

theorem stableSortByDate_pairwise (l : List IssueCommentWithDate) :
    List.Pairwise (fun a b => a.createdAt ≤ b.createdAt) (stableSortByDate l) := by
  induction l with
  | nil => simp [stableSortByDate]
  | cons c rest ih =>
    exact sortInsert_pairwise c ih

/-- C7: for a root pull-request node, the output comments are the merge of the
plain issue comments, the inline review-thread comments and the top-level
review verdicts, with empty bodies dropped, sorted ascending by creation
timestamp (the sorted list is pairwise ordered and a permutation of the
filtered merge), and with the timestamp projected away from every entry. -/
theorem c7_comments_merge (st : GhState) (rp : Str) (n : Nat)
    (issue : GitHubIssue) (refs : List IssueInfo)
    (hpr : (firstIdx (str "/pull/") issue.url).isSome = true) :
    (mkNode st rp n issue false refs).comments
      = (stableSortByDate ((plainCommentsOf issue ++ threadCommentsOf st n
          ++ reviewCommentsOf st n).filter (fun c => c.body ≠ []))).map stripDate ∧
    List.Pairwise (fun a b => a.createdAt ≤ b.createdAt)
      (stableSortByDate ((plainCommentsOf issue ++ threadCommentsOf st n
          ++ reviewCommentsOf st n).filter (fun c => c.body ≠ []))) ∧
    (stableSortByDate ((plainCommentsOf issue ++ threadCommentsOf st n
          ++ reviewCommentsOf st n).filter (fun c => c.body ≠ []))).Perm
      ((plainCommentsOf issue ++ threadCommentsOf st n
          ++ reviewCommentsOf st n).filter (fun c => c.body ≠ [])) := by
  refine ⟨?_, stableSortByDate_pairwise _, stableSortByDate_perm _⟩
  simp [mkNode, hpr]

/-- The C7 scenario: plain comments at t = 3 and t = 1, a review verdict at
t = 2, no inline threads. -/
def c7Issue : GitHubIssue :=
  { author := str "alice", title := str "pr", body := str "body",
    comments := [{ author := str "u1", body := str "late", createdAt := 3 },
                 { author := str "u2", body := str "early", createdAt := 1 }],
    url := str "https://github.com/o/r/pull/7" }

def c7State : GhState :=
  { issues := [(7, c7Issue)],
    prDiff := fun _ => [],
    reviewThreads := fun _ => some [],
    reviews := fun _ => some [{ user := str "rev", state := str "APPROVED",
                                body := str "verdict", submitted_at := 2 }],
    regexRemove := fun _ t => t }

theorem c7_comments_merge_witness :
    (firstIdx (str "/pull/") c7Issue.url).isSome = true ∧
    (mkNode c7State [] 7 c7Issue false []).comments
      = (stableSortByDate ((plainCommentsOf c7Issue ++ threadCommentsOf c7State 7
          ++ reviewCommentsOf c7State 7).filter (fun c => c.body ≠ []))).map stripDate ∧
    (mkNode c7State [] 7 c7Issue false []).comments
      = [{ author := str "u2", codeLocation := none, codeContent := none,
           reviewState := none, body := str "early" },
         { author := str "rev", codeLocation := none, codeContent := none,
           reviewState := some (str "APPROVED"), body := str "verdict" },
         { author := str "u1", codeLocation := none, codeContent := none,
           reviewState := none, body := str "late" }] :=
  ⟨by decide, (c7_comments_merge c7State [] 7 c7Issue [] (by decide)).1, by decide⟩

end GenPR
